import Mathlib

/-!
Shallow embedding of the factorio-data-collector pipeline
(src/fle_actions/extract.py, src/fle_actions/run_actions.py,
src/analysis/mine_factorio_replay.py).

Conventions of the embedding:
* Python ints are `Int`; byte values are `Nat`.
* Python floats are modelled as exact rationals; `round(x, 1)` is modelled as
  round-half-even to one decimal (Python's documented rounding mode), and
  one-decimal coordinates are carried as integers counting tenths of a unit.
* A fallible Python expression (one that can raise) returns `Option`/is mapped
  to `none` at the raise.
* JSON values read from the log records are stratified by nesting depth
  (`JS`, `J1`, `J2`, `JVal`): four levels, which covers every record shape the
  source reads (the deepest access in the source is
  record.entity.direction.previous.value). External collaborators
  (zlib.decompress, ast.literal_eval, json.loads of an items payload, the
  prototype catalog and the live-session spatial query) are parameters of the
  functions that call them.
-/

/-! Part A: integer square root and the rounded step of the move decomposer
(src/fle_actions/extract.py, decompose_move_to_call, lines 81-156). -/

/-- Integer square root by bounded dichotomy; kernel-reducible, used to decide
the square-root comparisons that the source performs on floats. -/
def sqrtGo (n : Nat) : Nat → Nat → Nat → Nat
  | 0, lo, _ => lo
  | f+1, lo, hi =>
    let mid := (lo + hi) / 2
    if mid = lo then lo
    else if mid * mid ≤ n then sqrtGo n f mid hi else sqrtGo n f lo mid

/-- Integer square root: the largest r with r * r ≤ n. -/
def isqrt (n : Nat) : Nat := sqrtGo n n 0 (n+1)

/-- Floor of x * sqrt n, computed with integer arithmetic. -/
def isqrtFloor (x : Int) (n : Nat) : Int :=
  if 0 ≤ x then (isqrt ((x * x).toNat * n) : Int)
  else if isqrt ((x * x).toNat * n) * isqrt ((x * x).toNat * n) = (x * x).toNat * n
    then -(isqrt ((x * x).toNat * n) : Int)
    else -((isqrt ((x * x).toNat * n) : Int) + 1)

/-- Round-half-even of (89 * x) / (2 * sqrt n): the per-segment coordinate
advance `round(unit_d * 4.45, 1)` of decompose_move_to_call, in tenths of a
unit, where x is the displacement component in tenths and n the squared
distance in tenths. -/
def roundStep (x : Int) (n : Nat) : Int :=
  if isqrt n * isqrt n = n ∧
      89 * x + (isqrt n : Int) =
        2 * (isqrt n : Int) * ((isqrtFloor (89 * x) n + (n : Int)) / (2 * (n : Int))) ∧
      ((isqrtFloor (89 * x) n + (n : Int)) / (2 * (n : Int))) % 2 ≠ 0
    then (isqrtFloor (89 * x) n + (n : Int)) / (2 * (n : Int)) - 1
    else (isqrtFloor (89 * x) n + (n : Int)) / (2 * (n : Int))

/-- Number of segments `math.ceil(total_distance / 4.45)` of
decompose_move_to_call: the ceiling of sqrt(4 * n) / 89 where n is the squared
distance in tenths (4.45 units = 44.5 tenths, and 2 * 44.5 = 89). -/
def segCount (n : Nat) : Nat :=
  if isqrt (4 * n) * isqrt (4 * n) = 4 * n ∧ isqrt (4 * n) % 89 = 0
    then isqrt (4 * n) / 89 else isqrt (4 * n) / 89 + 1

/-- One segment of a movement decomposition; ticks are Python ints, the four
coordinates are one-decimal floats carried as tenths. The segment's sort_tick
is its start_tick (decompose_move_to_call returns
`{'call': ..., 'sort_tick': current_tick}`). -/
structure MoveSeg where
  start_tick : Int
  end_tick : Int
  sx : Int
  sy : Int
  ex : Int
  ey : Int
deriving DecidableEq, Repr

/-- The `for i in range(num_segments)` walk of decompose_move_to_call
(lines 125-156): fuel is the number of segments still to emit, so fuel = 1
means `i == num_segments - 1` (the final segment, forced onto the destination
with its end tick clamped to `min(current_tick + 30, end_tick)`); afterwards
the loop breaks when the position reached the destination (the source tests
`abs(current - end) < 0.1`, which on exact tenths is equality) or when
`current_tick >= end_tick`. -/
def segWalk (bx b_y et mx my : Int) : Nat → Int → Int → Int → List MoveSeg
  | 0, _, _, _ => []
  | 1, cx, cy, ct => [⟨ct, min (ct + 30) et, cx, cy, bx, b_y⟩]
  | Nat.succ (Nat.succ k), cx, cy, ct =>
    ⟨ct, ct + 30, cx, cy, cx + mx, cy + my⟩ ::
      (if (cx + mx = bx ∧ cy + my = b_y) ∨ et ≤ ct + 30 then []
       else segWalk bx b_y et mx my (Nat.succ k) (cx + mx) (cy + my) (ct + 30))

/-- Squared straight-line distance of a move, in tenths of a unit. -/
def moveN (ax ay bx b_y : Int) : Nat :=
  ((bx - ax) * (bx - ax) + (b_y - ay) * (b_y - ay)).toNat

/-- Core of decompose_move_to_call on already-rounded inputs (ticks as ints,
coordinates as tenths): one full-range segment when the distance is within the
4.45-unit budget (n ≤ 1980.25 tenths^2, decided as 4n ≤ 7921), otherwise the
segment walk with the rounded constant step. -/
def decomposeCore (st et ax ay bx b_y : Int) : List MoveSeg :=
  if 4 * moveN ax ay bx b_y ≤ 7921 then [⟨st, et, ax, ay, bx, b_y⟩]
  else
    segWalk bx b_y et (roundStep (bx - ax) (moveN ax ay bx b_y))
      (roundStep (b_y - ay) (moveN ax ay bx b_y))
      (segCount (moveN ax ay bx b_y)) ax ay st

/-! Part B: character and string helpers shared by the embedding. -/

/-- Test for the regex class \w restricted to ASCII: letters, digits, underscore. -/
def wordChar (c : Char) : Bool := c.isAlphanum || c = '_'

/-- Python str.strip(): drop whitespace from both ends. -/
def pyStrip (l : List Char) : List Char :=
  ((l.dropWhile Char.isWhitespace).reverse.dropWhile Char.isWhitespace).reverse

/-- Containment of a character sequence (Python's `needle in hay`). -/
def containsSeq (needle : List Char) : List Char → Bool
  | [] => needle.isEmpty
  | c :: t => needle.isPrefixOf (c :: t) || containsSeq needle t

/-- Lower-casing of an ASCII character (Python str.lower on the record dumps). -/
def lowerChar (c : Char) : Char :=
  if 'A' ≤ c ∧ c ≤ 'Z' then Char.ofNat (c.toNat + 32) else c

/-- Pythons str.lower restricted to ASCII. -/
def lowerL (l : List Char) : List Char := l.map lowerChar

/-- Left-to-right non-overlapping replacement, the semantics of Python
str.replace; structural on a fuel that the wrappers set to the text length. -/
def replaceGo (needle repl : List Char) : Nat → List Char → List Char
  | 0, l => l
  | f+1, l =>
    if needle.isPrefixOf l ∧ needle ≠ [] then repl ++ replaceGo needle repl f (l.drop needle.length)
    else match l with
      | [] => []
      | c :: t => c :: replaceGo needle repl f t

/-- Python s.replace(needle, repl) for a non-empty needle. -/
def pyReplace (s needle repl : String) : String :=
  (replaceGo needle.data repl.data (s.data.length + 1) s.data).asString

/-- Decimal digit to character. -/
def digitChar : Nat → Char
  | 0 => '0' | 1 => '1' | 2 => '2' | 3 => '3' | 4 => '4'
  | 5 => '5' | 6 => '6' | 7 => '7' | 8 => '8' | _ => '9'

/-- Decimal digits of m, most significant first (empty for 0); fuel-structural. -/
def natToDecGo : Nat → Nat → List Char
  | 0, _ => []
  | f+1, m => if m = 0 then [] else natToDecGo f (m / 10) ++ [digitChar (m % 10)]

/-- Decimal rendering of a natural number, Python str(int) for nonnegatives. -/
def natToDec (m : Nat) : List Char := if m = 0 then ['0'] else natToDecGo m m

/-- Python str() of an int. -/
def intToDec (i : Int) : String :=
  ((if i < 0 then ['-'] else []) ++ natToDec i.natAbs).asString

/-- Value of a digit character. -/
def digitVal (c : Char) : Nat := c.toNat - 48

/-- Parse a non-empty all-digit character list as a natural number. -/
def parseDigits (l : List Char) : Option Nat :=
  if l ≠ [] ∧ l.all Char.isDigit then some (l.foldl (fun a c => 10 * a + digitVal c) 0)
  else none

/-- Python int(str): an optional sign followed by digits (whitespace and
underscore grouping are not modelled; the records carry plain decimals). -/
def pyIntParse (s : String) : Option Int :=
  match s.data with
  | [] => none
  | c :: t =>
    if c = '-' then (parseDigits t).map (fun m => -(m : Int))
    else if c = '+' then (parseDigits t).map (fun m => (m : Int))
    else (parseDigits (c :: t)).map (fun m => (m : Int))

/-- Parse the digit part allowing emptiness (for float syntax like "5."). -/
def parseDigits0 (l : List Char) : Option Nat :=
  if l.all Char.isDigit then some (l.foldl (fun a c => 10 * a + digitVal c) 0)
  else none

/-- Absolute part of Python float(str): digits, optional point, digits. -/
def pyFloatAbs (l : List Char) : Option ℚ :=
  if l.contains '.' then
    if ((l.dropWhile (fun c => c ≠ '.')).drop 1).contains '.' then none
    else if (l.takeWhile (fun c => c ≠ '.')).length +
        ((l.dropWhile (fun c => c ≠ '.')).drop 1).length = 0 then none
    else match parseDigits0 (l.takeWhile (fun c => c ≠ '.')),
        parseDigits0 ((l.dropWhile (fun c => c ≠ '.')).drop 1) with
      | some a, some b =>
        some ((a : ℚ) + (b : ℚ) / (10 : ℚ) ^ ((l.dropWhile (fun c => c ≠ '.')).drop 1).length)
      | _, _ => none
  else (parseDigits l).map (fun m => (m : ℚ))

/-- Python float(str) on plain decimal syntax: optional sign, digits, an
optional point and fraction digits, at least one digit in all
(scientific notation is not modelled; the trace renders plain decimals). -/
def pyFloatParse (s : String) : Option ℚ :=
  match s.data with
  | [] => none
  | c :: t =>
    if c = '-' then (pyFloatAbs t).map (fun q => -q)
    else if c = '+' then pyFloatAbs t
    else pyFloatAbs (c :: t)

/-- Rendering of a tenths-valued coordinate, Python str() of a one-decimal
float (str(4.5) = "4.5", str(4.0) = "4.0"). -/
def renderTenths (t : Int) : String :=
  ((if t < 0 then ['-'] else []) ++ natToDec (t.natAbs / 10) ++ '.' :: natToDec (t.natAbs % 10)).asString

/-- Join with a separator. -/
def sjoin (sep : String) : List String → String
  | [] => ""
  | [x] => x
  | x :: y :: t => x ++ sep ++ sjoin sep (y :: t)

/-! Part C: stratified JSON values and records
(the LogRecord data model; spec section 3). -/

/-- Scalar JSON value (JSON fractional numbers are not modelled: every record
field the source reads is an integer, a string or a nested group). -/
inductive JS where
  | num (n : Int)
  | str (s : String)
deriving DecidableEq, Repr

/-- JSON value of nesting depth at most 1: a scalar or a flat object. -/
inductive J1 where
  | base (a : JS)
  | obj (o : List (String × JS))
deriving DecidableEq, Repr

/-- JSON value of nesting depth at most 2. -/
inductive J2 where
  | base (a : JS)
  | obj (o : List (String × J1))
deriving DecidableEq, Repr

/-- Top-level JSON value of a record field: a scalar, an object of depth-2
values, or an array of flat objects (the `items` payloads). -/
inductive JVal where
  | num (n : Int)
  | str (s : String)
  | obj (o : List (String × J2))
  | arr (l : List (List (String × JS)))
deriving DecidableEq, Repr

/-- A log record: a JSON object in key order. -/
def Record : Type := List (String × JVal)

/-- Python dict lookup d.get(k) on an association list (keys are unique in a
dict, so the first hit is the value). -/
def jget {α : Type} (r : List (String × α)) (k : String) : Option α :=
  (r.find? (fun p => p.1 == k)).map (fun p => p.2)

/-- Python dict assignment d[k] = v: overwrite in place or append. -/
def setKey {α : Type} (r : List (String × α)) (k : String) (v : α) : List (String × α) :=
  if r.any (fun p => p.1 == k) then r.map (fun p => if p.1 == k then (k, v) else p)
  else r ++ [(k, v)]

/-- Python str() of a scalar: numbers bare, strings as-is. -/
def jsStr : JS → String
  | .num n => intToDec n
  | .str s => s

/-- Python repr() of a scalar: strings get single quotes. -/
def jsRepr : JS → String
  | .num n => intToDec n
  | .str s => "'" ++ s ++ "'"

/-- Python repr() of a flat dict. -/
def objRepr0 (o : List (String × JS)) : String :=
  "\x7b" ++ sjoin ", " (o.map (fun p => "'" ++ p.1 ++ "': " ++ jsRepr p.2)) ++ "\x7d"

/-- Python str() of a depth-1 value (str of a dict is its repr). -/
def j1Str : J1 → String
  | .base a => jsStr a
  | .obj o => objRepr0 o

/-- Python repr() of a depth-1 value. -/
def j1Repr : J1 → String
  | .base a => jsRepr a
  | .obj o => objRepr0 o

/-- Python repr() of a depth-1 dict. -/
def objRepr1 (o : List (String × J1)) : String :=
  "\x7b" ++ sjoin ", " (o.map (fun p => "'" ++ p.1 ++ "': " ++ j1Repr p.2)) ++ "\x7d"

/-- Python str() of a depth-2 value. -/
def j2Str : J2 → String
  | .base a => jsStr a
  | .obj o => objRepr1 o

/-- Python repr() of a depth-2 value. -/
def j2Repr : J2 → String
  | .base a => jsRepr a
  | .obj o => objRepr1 o

/-- Python repr() of a depth-2 dict. -/
def objRepr2 (o : List (String × J2)) : String :=
  "\x7b" ++ sjoin ", " (o.map (fun p => "'" ++ p.1 ++ "': " ++ j2Repr p.2)) ++ "\x7d"

/-- Python str() of a top-level value (used by the f-string renders and by
`str(items)` for the items payloads). -/
def pyStr : JVal → String
  | .num n => intToDec n
  | .str s => s
  | .obj o => objRepr2 o
  | .arr l => "[" ++ sjoin ", " (l.map objRepr0) ++ "]"

/-- JSON serialization of a scalar (json.dumps: double-quoted strings). -/
def jsDump : JS → String
  | .num n => intToDec n
  | .str s => "\"" ++ s ++ "\""

/-- JSON serialization of a flat object. -/
def objDump0 (o : List (String × JS)) : String :=
  "\x7b" ++ sjoin ", " (o.map (fun p => "\"" ++ p.1 ++ "\": " ++ jsDump p.2)) ++ "\x7d"

/-- JSON serialization of a depth-1 value. -/
def j1Dump : J1 → String
  | .base a => jsDump a
  | .obj o => objDump0 o

/-- JSON serialization of a depth-1 object. -/
def objDump1 (o : List (String × J1)) : String :=
  "\x7b" ++ sjoin ", " (o.map (fun p => "\"" ++ p.1 ++ "\": " ++ j1Dump p.2)) ++ "\x7d"

/-- JSON serialization of a depth-2 value. -/
def j2Dump : J2 → String
  | .base a => jsDump a
  | .obj o => objDump1 o

/-- JSON serialization of a top-level value. -/
def jvDump : JVal → String
  | .num n => intToDec n
  | .str s => "\"" ++ s ++ "\""
  | .obj o => "\x7b" ++ sjoin ", " (o.map (fun p => "\"" ++ p.1 ++ "\": " ++ j2Dump p.2)) ++ "\x7d"
  | .arr l => "[" ++ sjoin ", " (l.map objDump0) ++ "]"

/-- Serialization of a whole record, json.dumps(record) (string escaping is not
modelled: the record fields carry no quotes or backslashes). -/
def dumps (r : Record) : String :=
  "\x7b" ++ sjoin ", " (r.map (fun p => "\"" ++ p.1 ++ "\": " ++ jvDump p.2)) ++ "\x7d"

/-- Python truthiness of a JSON value (`if items:`). -/
def jTruthy : JVal → Bool
  | .num n => decide (n ≠ 0)
  | .str s => decide (s ≠ "")
  | .obj o => decide (o ≠ [])
  | .arr l => decide (l ≠ [])

/-! Part D: time resolution and resource classification
(src/fle_actions/extract.py lines 8-78). -/

/-- Python int(v) on a JSON value: ints pass through, strings are parsed,
anything else raises (TypeError, caught by the caller). -/
def pyToIntJ : JVal → Option Int
  | .num n => some n
  | .str s => pyIntParse s
  | _ => none

/-- Python int(v) on a depth-2 value. -/
def pyToIntJ2 : J2 → Option Int
  | .base (.num n) => some n
  | .base (.str s) => pyIntParse s
  | _ => none

/-- Python int(v) on a depth-1 value. -/
def pyToIntJ1 : J1 → Option Int
  | .base (.num n) => some n
  | .base (.str s) => pyIntParse s
  | _ => none

/-- Python float(v) on a depth-1 value. -/
def pyToFloatJ1 : J1 → Option ℚ
  | .base (.num n) => some (n : ℚ)
  | .base (.str s) => pyFloatParse s
  | _ => none

/-- Embedding of get_time_from_record (extract.py lines 8-42): collect the
int()-parses of the 't' and 'tick' fields and return the maximum; raise
(`none`) when neither field parses. -/
def get_time_from_record (r : Record) : Option Int :=
  match (match jget r "t" with
         | none => []
         | some v => match pyToIntJ v with | some z => [z] | none => []) ++
        (match jget r "tick" with
         | none => []
         | some v => match pyToIntJ v with | some z => [z] | none => []) with
  | [] => none
  | z :: zs => some (zs.foldl max z)

/-- Embedding of is_standard_factorio_resource (extract.py lines 45-78). -/
def is_standard_factorio_resource (entity_name : String) : Bool :=
  let standard_resources := ["coal", "iron-ore", "copper-ore", "stone", "uranium-ore", "crude-oil"]
  let tree_prefixes := ["tree-", "dead-tree-"]
  let rock_names := ["rock-big", "rock-huge", "sand-rock-big"]
  if standard_resources.contains entity_name || rock_names.contains entity_name then true
  else if tree_prefixes.any (fun p => p.data.isPrefixOf entity_name.data) then true
  else if entity_name = "tree" || containsSeq "tree".data entity_name.data then true
  else false

/-! Part E: the record normalizer
(src/fle_actions/extract.py lines 159-386). -/

/-- One normalized action: the rendered call string and its sort_tick (the
source stores whatever object the record held, here a depth-2 value). -/
structure CallRec where
  call : String
  sort_tick : J2
deriving DecidableEq, Repr

/-- Result of handle_action_based_record: a list of rendered calls, or the
move_to_direction marker dict carrying the six raw movement fields. -/
inductive ActionCalls where
  | calls (l : List CallRec)
  | move (st et sx sy ex ey : J1)
deriving DecidableEq, Repr

/-- Python record.get(k, \x7b\x7d) followed by attribute access .get on the
result: the default is the empty dict, a present non-dict value raises. -/
def asObj (v : Option JVal) : Option (List (String × J2)) :=
  match v with
  | none => some []
  | some (.obj o) => some o
  | some _ => none

/-- Same pattern one level down. -/
def j2AsObj : Option J2 → Option (List (String × J1))
  | none => some []
  | some (.obj o) => some o
  | some _ => none

/-- Same pattern two levels down. -/
def j1AsObj : Option J1 → Option (List (String × JS))
  | none => some []
  | some (.obj o) => some o
  | some _ => none

/-- Injection of a depth-1 value into depth-2 values. -/
def j1ToJ2 : J1 → J2
  | .base a => .base a
  | .obj o => .obj (o.map (fun p => (p.1, J1.base p.2)))

/-- Embedding of handle_action_based_record (extract.py lines 159-284),
branch by branch on the `action` discriminator; `none` models an uncaught
exception (get_time_from_record raising, or .get on a non-dict). -/
def handle_action_based_record (r : Record) : Option ActionCalls :=
  match jget r "action" with
  | some (.str "craft_item") => do
    let timing ← asObj (jget r "timing")
    let crafting ← asObj (jget r "crafting")
    let start_tick := (jget timing "start_tick").getD (J2.base (.num 0))
    let end_tick := (jget timing "end_tick").getD (J2.base (.num 0))
    let recipe := (jget crafting "recipe").getD (J2.base (.str ""))
    let count := (jget crafting "total_crafted").getD (J2.base (.num 0))
    pure (.calls [⟨"craft_item(start_tick=" ++ j2Str start_tick ++ ", end_tick=" ++
      j2Str end_tick ++ ", recipe='" ++ j2Str recipe ++ "', count=" ++ j2Str count ++ ")",
      start_tick⟩])
  | some (.str "move_to_direction") => do
    let player ← asObj (jget r "player")
    let start_movement ← j2AsObj (jget player "start_movement")
    let end_movement ← j2AsObj (jget player "end_movement")
    pure (.move
      ((jget start_movement "tick").getD (J1.base (.num 0)))
      ((jget end_movement "tick").getD (J1.base (.num 0)))
      ((jget start_movement "x").getD (J1.base (.num 0)))
      ((jget start_movement "y").getD (J1.base (.num 0)))
      ((jget end_movement "x").getD (J1.base (.num 0)))
      ((jget end_movement "y").getD (J1.base (.num 0))))
  | some (.str "pickup_entity") => do
    let tick ← get_time_from_record r
    let selected_entity ← asObj (jget r "selected_entity")
    let entity := (jget selected_entity "name").getD (J2.base (.str ""))
    let x := (jget selected_entity "x").getD (J2.base (.num 0))
    let y := (jget selected_entity "y").getD (J2.base (.num 0))
    pure (.calls [⟨"pickup_entity(tick=" ++ intToDec tick ++ ", entity='" ++ j2Str entity ++
      "', x=" ++ j2Str x ++ ", y=" ++ j2Str y ++ ")", J2.base (.num tick)⟩])
  | some (.str "place_entity") => do
    let tick ← get_time_from_record r
    let item ← asObj (jget r "item")
    let entity ← asObj (jget r "entity")
    let item_name := (jget item "name").getD (J2.base (.str ""))
    let x := (jget entity "x").getD (J2.base (.num 0))
    let y := (jget entity "y").getD (J2.base (.num 0))
    let direction ← j2AsObj (jget entity "direction")
    let dvalue := (jget direction "value").getD (J1.base (.num 0))
    pure (.calls [⟨"place_entity(tick=" ++ intToDec tick ++ ", item='" ++ j2Str item_name ++
      "', x=" ++ j2Str x ++ ", y=" ++ j2Str y ++ ", direction=" ++ j1Str dvalue ++ ")",
      J2.base (.num tick)⟩])
  | some (.str "extract_item") => do
    let tick ← get_time_from_record r
    let entity ← asObj (jget r "entity")
    let items := (jget r "items").getD (JVal.arr [])
    let entity_name := (jget entity "name").getD (J2.base (.str ""))
    let entity_x := (jget entity "x").getD (J2.base (.num 0))
    let entity_y := (jget entity "y").getD (J2.base (.num 0))
    let items_str := if jTruthy items then pyStr items else ""
    pure (.calls [⟨"extract_item(tick=" ++ intToDec tick ++ ", entity='" ++ j2Str entity_name ++
      "', entity_x=" ++ j2Str entity_x ++ ", entity_y=" ++ j2Str entity_y ++
      ", items='" ++ items_str ++ "')", J2.base (.num tick)⟩])
  | some (.str "insert_item") => do
    let tick ← get_time_from_record r
    let entity ← asObj (jget r "entity")
    let items := (jget r "items").getD (JVal.arr [])
    let entity_name := (jget entity "name").getD (J2.base (.str ""))
    let entity_x := (jget entity "x").getD (J2.base (.num 0))
    let entity_y := (jget entity "y").getD (J2.base (.num 0))
    let items_str := if jTruthy items then pyStr items else ""
    pure (.calls [⟨"insert_item(tick=" ++ intToDec tick ++ ", entity='" ++ j2Str entity_name ++
      "', entity_x=" ++ j2Str entity_x ++ ", entity_y=" ++ j2Str entity_y ++
      ", items='" ++ items_str ++ "')", J2.base (.num tick)⟩])
  | some (.str "rotate_entity") => do
    let tick ← get_time_from_record r
    let entity ← asObj (jget r "entity")
    let direction ← j2AsObj (jget entity "direction")
    let entity_name := (jget entity "name").getD (J2.base (.str ""))
    let x := (jget entity "x").getD (J2.base (.num 0))
    let y := (jget entity "y").getD (J2.base (.num 0))
    let prev ← j1AsObj (jget direction "previous")
    let old_direction := (jget prev "value").getD (JS.num 0)
    let nxt ← j1AsObj (jget direction "new")
    let new_direction := (jget nxt "value").getD (JS.num 0)
    pure (.calls [⟨"rotate_entity(tick=" ++ intToDec tick ++ ", entity='" ++ j2Str entity_name ++
      "', x=" ++ j2Str x ++ ", y=" ++ j2Str y ++ ", old_direction=" ++ jsStr old_direction ++
      ", new_direction=" ++ jsStr new_direction ++ ")", J2.base (.num tick)⟩])
  | some (.str "set_entity_recipe") => do
    let tick ← get_time_from_record r
    let entity ← asObj (jget r "entity")
    let player ← asObj (jget r "player")
    let entity_name := (jget entity "name").getD (J2.base (.str ""))
    let new_recipe := (jget entity "new_recipe").getD (J2.base (.str ""))
    let x := (jget player "x").getD (J2.base (.num 0))
    let y := (jget player "y").getD (J2.base (.num 0))
    pure (.calls [⟨"set_entity_recipe(tick=" ++ intToDec tick ++ ", entity='" ++
      j2Str entity_name ++ "', new_recipe='" ++ j2Str new_recipe ++ "', x=" ++ j2Str x ++
      ", y=" ++ j2Str y ++ ")", J2.base (.num tick)⟩])
  | some (.str "research_started") => do
    let tick ← get_time_from_record r
    let research := (jget r "research").getD (JVal.str "")
    pure (.calls [⟨"set_research(tick=" ++ intToDec tick ++ ", research='" ++ pyStr research ++
      "')", J2.base (.num tick)⟩])
  | _ => some (.calls [])

/-- Round-half-even to one decimal place, returning tenths: the model of
Python round(float(v), 1). -/
def round10 (q : ℚ) : Int :=
  if 10 * q - Int.floor (10 * q) < 1/2 then Int.floor (10 * q)
  else if 1/2 < 10 * q - Int.floor (10 * q) then Int.floor (10 * q) + 1
  else if Int.floor (10 * q) % 2 = 0 then Int.floor (10 * q) else Int.floor (10 * q) + 1

/-- Rendering of one emitted segment of decompose_move_to_call as the
move_to(...) call string with its sort_tick. -/
def segToCall (s : MoveSeg) : CallRec :=
  ⟨"move_to(start_tick=" ++ intToDec s.start_tick ++ ", end_tick=" ++ intToDec s.end_tick ++
    ", start_x=" ++ renderTenths s.sx ++ ", start_y=" ++ renderTenths s.sy ++
    ", end_x=" ++ renderTenths s.ex ++ ", end_y=" ++ renderTenths s.ey ++ ")",
    J2.base (.num s.start_tick)⟩

/-- Embedding of decompose_move_to_call (extract.py lines 81-156): round the
coordinates to one decimal, convert the ticks to int, then run the
speed-bounded walk; `none` models float()/int() raising on a bad field. -/
def decompose_move_to_call (stv etv sxv syv exv eyv : J1) : Option (List CallRec) := do
  let sx ← pyToFloatJ1 sxv
  let sy ← pyToFloatJ1 syv
  let ex ← pyToFloatJ1 exv
  let ey ← pyToFloatJ1 eyv
  let st ← pyToIntJ1 stv
  let et ← pyToIntJ1 etv
  pure ((decomposeCore st et (round10 sx) (round10 sy) (round10 ex) (round10 ey)).map segToCall)

/-- Embedding of transform_record_to_python_call (extract.py lines 287-336):
core-meta dropped, action-based records dispatched (movement decomposed),
otherwise the legacy collated-harvest path keyed by file type. -/
def transform_record_to_python_call (r : Record) (source_file : String) :
    Option (List CallRec) :=
  if pyReplace source_file ".jsonl" "" = "core-meta" then some []
  else match handle_action_based_record r with
  | none => none
  | some (.move st et sx sy ex ey) => decompose_move_to_call st et sx sy ex ey
  | some (.calls (c :: cs)) => some (c :: cs)
  | some (.calls []) => do
    let tick ← get_time_from_record r
    if pyReplace source_file ".jsonl" "" = "harvest_resource_collated" then do
      let d ← match jget r "duration_ticks" with
        | none => some (0 : Int)
        | some (.num d) => some d
        | some _ => none
      let entity ← match jget r "entity" with
        | none => some ""
        | some (.str s) => some s
        | some _ => none
      let x := (jget r "x").getD (JVal.num 0)
      let y := (jget r "y").getD (JVal.num 0)
      if is_standard_factorio_resource entity then
        pure [⟨"harvest_resource(start_tick=" ++ intToDec (tick - d) ++ ", end_tick=" ++
          intToDec tick ++ ", entity='" ++ entity ++ "', x=" ++ pyStr x ++ ", y=" ++
          pyStr y ++ ")", J2.base (.num (tick - d))⟩]
      else
        pure [⟨"pickup_entity(tick=" ++ intToDec tick ++ ", entity='" ++ entity ++
          "', x=" ++ pyStr x ++ ", y=" ++ pyStr y ++ ")", J2.base (.num (tick - d))⟩]
    else pure []

/-- Embedding of transform_record_to_python_call_no_decompose (extract.py
lines 339-386): identical except that a movement becomes one single move_to
call rendered from the raw fields. -/
def transform_record_to_python_call_no_decompose (r : Record) (source_file : String) :
    Option (List CallRec) :=
  if pyReplace source_file ".jsonl" "" = "core-meta" then some []
  else match handle_action_based_record r with
  | none => none
  | some (.move st et sx sy ex ey) =>
    some [⟨"move_to(start_tick=" ++ j1Str st ++ ", end_tick=" ++ j1Str et ++
      ", start_x=" ++ j1Str sx ++ ", start_y=" ++ j1Str sy ++ ", end_x=" ++ j1Str ex ++
      ", end_y=" ++ j1Str ey ++ ")", j1ToJ2 st⟩]
  | some (.calls (c :: cs)) => some (c :: cs)
  | some (.calls []) => do
    let tick ← get_time_from_record r
    if pyReplace source_file ".jsonl" "" = "harvest_resource_collated" then do
      let d ← match jget r "duration_ticks" with
        | none => some (0 : Int)
        | some (.num d) => some d
        | some _ => none
      let entity ← match jget r "entity" with
        | none => some ""
        | some (.str s) => some s
        | some _ => none
      let x := (jget r "x").getD (JVal.num 0)
      let y := (jget r "y").getD (JVal.num 0)
      if is_standard_factorio_resource entity then
        pure [⟨"harvest_resource(start_tick=" ++ intToDec (tick - d) ++ ", end_tick=" ++
          intToDec tick ++ ", entity='" ++ entity ++ "', x=" ++ pyStr x ++ ", y=" ++
          pyStr y ++ ")", J2.base (.num (tick - d))⟩]
      else
        pure [⟨"pickup_entity(tick=" ++ intToDec tick ++ ", entity='" ++ entity ++
          "', x=" ++ pyStr x ++ ", y=" ++ pyStr y ++ ")", J2.base (.num (tick - d))⟩]
    else pure []

/-! Part F: batch ingestion and the sorted trace
(src/fle_actions/extract.py lines 389-510). -/

/-- Sort key of the combined records: get_time_from_record (total on the kept
records, which were validated; 0 for the unreachable invalid case). -/
def timeKey (r : Record) : Int := (get_time_from_record r).getD 0

/-- Sort predicate of the combined records (list.sort(key=get_time_from_record)). -/
def recTimeLe (a b : Record) : Bool := decide (timeKey a ≤ timeKey b)

/-- Crash-site filter test of read_and_combine_jsonls (lines 429-433):
'crash-site' contained in the lower-cased JSON dump of the record. -/
def crashB (r : Record) : Bool :=
  containsSeq "crash-site".data (lowerL (dumps r).data)

/-- Per-line loop of read_and_combine_jsonls for one already-json-parsed file
(lines 420-450): drop crash-site records counting them, drop records without a
valid time field, attach the source file name to the rest. Returns the kept
records and the crash-site count. -/
def ingestFile (fname : String) : List Record → List Record × Nat
  | [] => ([], 0)
  | r :: rest =>
    let (ks, c) := ingestFile fname rest
    if crashB r then (ks, c + 1)
    else if (get_time_from_record r).isSome then
      (setKey r "_source_file" (JVal.str fname) :: ks, c)
    else (ks, c)

/-- Embedding of read_and_combine_jsonls for a single jsonl file (lines
389-465): ingest, optionally filter by max_time, stable-sort by time. -/
def read_and_combine_jsonls (fname : String) (lines : List Record)
    (max_time : Option Int) : List Record × Nat :=
  let (ks, c) := ingestFile fname lines
  let ks2 := match max_time with
    | none => ks
    | some m => ks.filter (fun r => decide (timeKey r ≤ m))
  (ks2.mergeSort recTimeLe, c)

/-- One line of the persisted trace artifact:
`{'tick': sort_tick, 'call': call}`. -/
structure TickCall where
  tick : Int
  call : String
deriving DecidableEq, Repr

/-- Sort predicate of the trace (python_calls.sort(key=lambda x: x['tick'])). -/
def tickLe (a b : TickCall) : Bool := decide (a.tick ≤ b.tick)

/-- Collection loop of save_python_calls (lines 485-496): transform every
record with the chosen transform function and flatten; `none` models an
exception propagating out of a transform. -/
def collectCalls (decompose : Bool) : List Record → Option (List CallRec)
  | [] => some []
  | r :: rest => do
    let src ← match jget r "_source_file" with
      | none => some ""
      | some (.str s) => some s
      | some _ => none
    let calls ← if decompose then transform_record_to_python_call r src
      else transform_record_to_python_call_no_decompose r src
    let tail ← collectCalls decompose rest
    pure (calls ++ tail)

/-- Sort-key extraction for the trace: every sort_tick must be an int for
Python's sort to compare them (a mixed-type list would raise, modelled none). -/
def toIntTicks : List CallRec → Option (List TickCall)
  | [] => some []
  | c :: rest => do
    match c.sort_tick with
    | .base (.num n) =>
      let tail ← toIntTicks rest
      pure (⟨n, c.call⟩ :: tail)
    | _ => none

/-- Embedding of save_python_calls (extract.py lines 468-510): transform all
records, then stable-sort the flat call list by its tick key. -/
def save_python_calls (records : List Record) (decompose : Bool) :
    Option (List TickCall) := do
  let flat ← collectCalls decompose records
  let keyed ← toIntTicks flat
  pure (keyed.mergeSort tickLe)

/-! Part G: the binary container decoder
(src/analysis/mine_factorio_replay.py lines 32-47). -/

/-- Little-endian u32 of four bytes. -/
def le32 (b0 b1 b2 b3 : Nat) : Nat := b0 + 256 * b1 + 65536 * b2 + 16777216 * b3

/-- Loop of inflate_chunks: while at least 4 bytes remain, read the length
prefix, slice the block (short slices stay short, as in Python), decompress
and append; fewer than 4 remaining bytes end the loop (`# truncated tail`).
`dec` is the external zlib.decompress, `none` its raise. Fuel-structural;
every step consumes at least four bytes. -/
def inflateGo (dec : List Nat → Option (List Nat)) : Nat → List Nat → Option (List Nat)
  | _, [] => some []
  | 0, _ :: _ => some []
  | f+1, b0 :: b1 :: b2 :: b3 :: rest => do
    let block := rest.take (le32 b0 b1 b2 b3)
    let d ← dec block
    let tail ← inflateGo dec f (rest.drop (le32 b0 b1 b2 b3))
    pure (d ++ tail)
  | _+1, _ => some []

/-- Embedding of inflate_chunks. -/
def inflate_chunks (dec : List Nat → Option (List Nat)) (raw : List Nat) :
    Option (List Nat) :=
  inflateGo dec raw.length raw

/-- Little-endian length prefix of a block (valid for lengths below 2^32). -/
def le4 (n : Nat) : List Nat :=
  [n % 256, n / 256 % 256, n / 65536 % 256, n / 16777216 % 256]

/-- Container encoding of a list of compressed blocks:
repeated (u32-LE length, block bytes). -/
def encodeChunks : List (List Nat) → List Nat
  | [] => []
  | b :: t => le4 b.length ++ b ++ encodeChunks t

/-- Decoded concatenation of a block list under a decompressor. -/
def decodeAll (dec : List Nat → Option (List Nat)) : List (List Nat) → List Nat
  | [] => []
  | b :: t => ((dec b).getD []) ++ decodeAll dec t

/-! Part H: the trace consumer's call parser
(src/fle_actions/run_actions.py lines 94-169). -/

/-- A parsed argument value: int, float, string, or the result of
ast.literal_eval on a bracket/brace literal (modelled as a JSON value). -/
inductive PVal where
  | int (n : Int)
  | float (q : ℚ)
  | str (s : String)
  | obj (v : JVal)
deriving DecidableEq, Repr

/-- Argument splitter of parse_function_call (lines 107-137): split at commas
only while the parenthesis, bracket and brace counters are all zero; the
counters follow the source (plain ints, so an unbalanced closer goes
negative). -/
def splitArgsGo : List Char → Int → Int → Int → List Char → List (List Char)
  | [], _, _, _, cur => if pyStrip cur = [] then [] else [pyStrip cur]
  | c :: cs, p, b, r, cur =>
    if c = '(' then splitArgsGo cs (p + 1) b r (cur ++ [c])
    else if c = '[' then splitArgsGo cs p (b + 1) r (cur ++ [c])
    else if c = '{' then splitArgsGo cs p b (r + 1) (cur ++ [c])
    else if c = ')' then splitArgsGo cs (p - 1) b r (cur ++ [c])
    else if c = ']' then splitArgsGo cs p (b - 1) r (cur ++ [c])
    else if c = '}' then splitArgsGo cs p b (r - 1) (cur ++ [c])
    else if c = ',' ∧ p = 0 ∧ b = 0 ∧ r = 0 then pyStrip cur :: splitArgsGo cs p b r []
    else splitArgsGo cs p b r (cur ++ [c])

/-- Numeric test of parse_function_call (line 157):
value.replace('.', '').replace('-', '').isdigit(). -/
def numericCheckB (v : List Char) : Bool :=
  decide (v.filter (fun c => c ≠ '.' && c ≠ '-') ≠ []) &&
    (v.filter (fun c => c ≠ '.' && c ≠ '-')).all Char.isDigit

/-- Value interpretation of parse_function_call (lines 146-167): strip a
matched quote pair, hand bracket/brace literals to ast.literal_eval
(`litEval`, an external collaborator whose failure falls back to the raw
string), parse numbers, default to the raw string. -/
def parseValue (litEval : String → Option JVal) (v : List Char) : PVal :=
  if v.head? = some '\'' ∧ v.getLast? = some '\'' then .str ((v.drop 1).dropLast).asString
  else if v.head? = some '"' ∧ v.getLast? = some '"' then .str ((v.drop 1).dropLast).asString
  else if v.head? = some '[' ∨ v.head? = some '{' then
    match litEval v.asString with
    | some jv => .obj jv
    | none => .str v.asString
  else if numericCheckB v then
    if v.contains '.' then
      match pyFloatParse v.asString with
      | some q => .float q
      | none => .str v.asString
    else
      match pyIntParse v.asString with
      | some z => .int z
      | none => .str v.asString
  else .str v.asString

/-- One `key=value` pair (lines 140-144): pairs without '=' are skipped,
the split is at the first '='. -/
def parsePair (litEval : String → Option JVal) (pair : List Char) :
    Option (String × PVal) :=
  if pair.contains '=' then
    some ((pyStrip (pair.takeWhile (fun c => c ≠ '='))).asString,
      parseValue litEval (pyStrip ((pair.dropWhile (fun c => c ≠ '=')).drop 1)))
  else none

/-- The argument dictionary in insertion order with Python dict overwrite
semantics. -/
def parseArgsList (litEval : String → Option JVal) (argsStr : List Char) :
    List (String × PVal) :=
  if pyStrip argsStr = [] then []
  else (splitArgsGo argsStr 0 0 0 []).foldl
    (fun acc pair => match parsePair litEval pair with
      | none => acc
      | some (k, v) => setKey acc k v) []

/-- Embedding of parse_function_call (run_actions.py lines 94-169): the regex
match `(\w+)\((.*)\)` anchored at the start, whose greedy group 2 runs to the
last ')' of the string; no match raises ValueError (`none`). -/
def parse_function_call (litEval : String → Option JVal) (call_string : String) :
    Option (String × List (String × PVal)) :=
  if call_string.data.takeWhile wordChar = [] then none
  else match call_string.data.drop (call_string.data.takeWhile wordChar).length with
  | '(' :: rest =>
    if (rest.reverse.takeWhile (fun c => c ≠ ')')).length = rest.length then none
    else some ((call_string.data.takeWhile wordChar).asString,
      parseArgsList litEval
        (rest.take (rest.length - (rest.reverse.takeWhile (fun c => c ≠ ')')).length - 1)))
  | _ => none

/-- Rendered-value grammar of the trace artifact: bare ints, one-decimal
floats (carried as tenths), and single-quoted strings. -/
inductive RVal where
  | rint (n : Int)
  | rdec (t : Int)
  | rstr (s : String)
deriving DecidableEq, Repr

/-- Rendering of one value as the normalizer renders it. -/
def renderRVal : RVal → String
  | .rint n => intToDec n
  | .rdec t => renderTenths t
  | .rstr s => "'" ++ s ++ "'"

/-- Rendering of the argument list, comma-space separated. -/
def renderCallArgs (args : List (String × RVal)) : String :=
  sjoin ", " (args.map (fun p => p.1 ++ "=" ++ renderRVal p.2))

/-- Rendering of a whole call string `name(key=value, ...)`. -/
def renderCall (name : String) (args : List (String × RVal)) : String :=
  name ++ "(" ++ renderCallArgs args ++ ")"

/-- The parse a faithful consumer should recover for each rendered value. -/
def expectedPVal : RVal → PVal
  | .rint n => .int n
  | .rdec t => .float ((t : ℚ) / 10)
  | .rstr s => .str s

/-- Characters a quoted string value must avoid for the splitter (which does
not track quotes) and the quote-stripper to recover it. -/
def cleanStrChar (c : Char) : Bool :=
  !([',', '\'', '"', '(', ')', '[', ']', '{', '}', '\n'].contains c)

/-- Characters at which the argument splitter neither splits nor counts:
everything except the three delimiter pairs and the comma. -/
def splitterInert (c : Char) : Bool :=
  !(['(', '[', '{', ')', ']', '}', ','].contains c)

/-- Well-formedness of an identifier: non-empty, regex \w characters. -/
def wfName (s : String) : Bool := decide (s ≠ "") && s.data.all wordChar

/-- Well-formedness of a rendered value. -/
def wfRVal : RVal → Bool
  | .rstr s => s.data.all cleanStrChar
  | _ => true

/-! Part I: the argument marshaller for extract_item and insert_item
(src/fle_actions/run_actions.py lines 219-263 and 307-356). -/

/-- A resolved item handle: a prototype from the catalog, or the raw value
passed through with a warning when resolution fails. -/
inductive Handle where
  | proto (name : String)
  | rawJS (v : JS)
deriving DecidableEq, Repr

/-- Resolution of an item name against the prototype catalog `protoMem`
(prototype_by_name, an external collaborator). -/
def mkHandle (protoMem : String → Bool) : JS → Handle
  | .str s => if protoMem s then .proto s else .rawJS (.str s)
  | v => .rawJS v

/-- The quote swap items_str.replace("'", '"') before json.loads. -/
def swapQuotes (s : String) : String :=
  (s.data.map (fun c => if c = '\'' then '"' else c)).asString

/-- Removal of the scheduling-only keys (run_actions.py lines 216-217). -/
def filterTiming (args : List (String × PVal)) : List (String × PVal) :=
  args.filter (fun p => !(["start_tick", "end_tick", "tick"].contains p.1))

/-- One prepared external extract_item call: entity, source position and
quantity. -/
structure ExtractCall where
  entity : Handle
  source_x : PVal
  source_y : PVal
  quantity : JS
deriving DecidableEq, Repr

/-- Outcome of the multi-item extract_item block (lines 219-263). -/
inductive ExtractOutcome where
  | not_applicable
  | skipped
  | raised
  | executed (calls : List ExtractCall)
deriving DecidableEq, Repr

/-- Embedding of the extract_item special block of execute_action (lines
219-263): parse the items string (json.loads after the quote swap), then
prepare one call per item of items_list[:1] - only the first item. -/
def extract_item_block (parseItems : String → Option (List (List (String × JS))))
    (protoMem : String → Bool) (func_name : String) (args : List (String × PVal)) :
    ExtractOutcome :=
  if func_name = "extract_item" ∧ (jget (filterTiming args) "items").isSome then
    match jget (filterTiming args) "items" with
    | some (.str s) =>
      if pyStrip s.data = [] then .skipped
      else match parseItems (swapQuotes s) with
        | none => .raised
        | some items_list =>
          if 0 < items_list.length then
            match jget (filterTiming args) "entity_x", jget (filterTiming args) "entity_y" with
            | some ex, some ey =>
              match items_list with
              | [] => .not_applicable
              | it :: _ =>
                match jget it "item" with
                | none => .raised
                | some iv =>
                  .executed [⟨mkHandle protoMem iv, ex, ey, (jget it "count").getD (JS.num 1)⟩]
            | _, _ => .raised
          else .not_applicable
    | _ => .not_applicable
  else .not_applicable

/-- Marshalled target of an insert_item call: a live entity found by the
spatial query, or the raw position as fallback. -/
inductive InsertTarget where
  | ent (h : String)
  | pos (x y : PVal)
deriving DecidableEq, Repr

/-- The new_args dictionary the insert_item branch builds (lines 307-356). -/
structure InsertArgs where
  entity : Option Handle
  quantity : Option JS
  target : Option InsertTarget
deriving DecidableEq, Repr

/-- Items part of the insert_item branch (lines 311-333): entity and quantity
from items_list[0] only; json or a missing 'item' key raise. -/
def insert_items_calc (parseItems : String → Option (List (List (String × JS))))
    (protoMem : String → Bool) (filtered : List (String × PVal)) :
    Option (Option Handle × Option JS) :=
  match jget filtered "items" with
  | some (.str s) =>
    match parseItems (swapQuotes s) with
    | none => none
    | some [] => some (none, none)
    | some (it :: _) =>
      match jget it "item" with
      | none => none
      | some iv =>
        some (some (mkHandle protoMem iv), some ((jget it "count").getD (JS.num 1)))
  | some _ => some (none, none)
  | none => some (none, none)

/-- Target part of the insert_item branch (lines 335-354): the first live
entity of the expected kind at (entity_x, entity_y) via the external spatial
query, falling back to the raw position. -/
def insert_target_calc (protoMem : String → Bool)
    (query : String → PVal → PVal → List String) (filtered : List (String × PVal)) :
    Option InsertTarget :=
  match jget filtered "entity_x", jget filtered "entity_y" with
  | some ex, some ey =>
    match jget filtered "entity" with
    | some (.str tname) =>
      if tname ≠ "" ∧ protoMem tname then
        match query tname ex ey with
        | h :: _ => some (InsertTarget.ent h)
        | [] => some (InsertTarget.pos ex ey)
      else some (InsertTarget.pos ex ey)
    | _ => some (InsertTarget.pos ex ey)
  | _, _ => none

/-- Embedding of the insert_item branch of execute_action (lines 307-356). -/
def insert_item_args (parseItems : String → Option (List (List (String × JS))))
    (protoMem : String → Bool) (query : String → PVal → PVal → List String)
    (args : List (String × PVal)) : Option InsertArgs := do
  let ep ← insert_items_calc parseItems protoMem (filterTiming args)
  pure ⟨ep.1, ep.2, insert_target_calc protoMem query (filterTiming args)⟩

/-! Part J: claim-side check predicates (used only to state the theorems). -/

/-- Check that consecutive segments chain: each segment's end position and end
tick equal the next segment's start position and start tick. -/
def chainOK : List MoveSeg → Bool
  | [] => true
  | [_] => true
  | a :: b :: t =>
    (decide (a.ex = b.sx) && decide (a.ey = b.sy) && decide (a.end_tick = b.start_tick))
      && chainOK (b :: t)

/-- Check that the last emitted segment (if any) ends exactly on the rounded
destination with an end tick within the original end tick. -/
def lastOK (bx b_y et : Int) (l : List MoveSeg) : Bool :=
  l.getLast?.all fun s => decide (s.ex = bx) && decide (s.ey = b_y) && decide (s.end_tick ≤ et)

/-- The rendered character list of one key=value argument (used to state the
round-trip theorem). -/
def pieceOf (p : String × RVal) : List Char := (p.1 ++ "=" ++ renderRVal p.2).data

/-!
Theorems. First the supporting lemmas about the numeric core and the segment
walk, then one theorem (with witness or counterexample) per claim C1-C10.
-/

theorem sqrtGo_spec (n : Nat) : ∀ (f lo hi : Nat), lo * lo ≤ n → n < hi * hi →
    lo < hi → hi - lo ≤ f + 1 →
    sqrtGo n f lo hi * sqrtGo n f lo hi ≤ n ∧
      n < (sqrtGo n f lo hi + 1) * (sqrtGo n f lo hi + 1) := by
  intro f
  induction f with
  | zero =>
    intro lo hi h1 h2 h3 h4
    simp only [sqrtGo]
    have : hi = lo + 1 := by omega
    subst this
    exact ⟨h1, h2⟩
  | succ f ih =>
    intro lo hi h1 h2 h3 h4
    simp only [sqrtGo]
    by_cases hm : (lo + hi) / 2 = lo
    · have hhi : hi = lo + 1 := by omega
      subst hhi
      rw [if_pos hm]
      exact ⟨h1, h2⟩
    · rw [if_neg hm]
      by_cases hle : (lo + hi) / 2 * ((lo + hi) / 2) ≤ n
      · rw [if_pos hle]
        exact ih _ _ hle h2 (by omega) (by omega)
      · rw [if_neg hle]
        exact ih _ _ h1 (by omega) (by omega) (by omega)

theorem isqrt_spec (n : Nat) : isqrt n * isqrt n ≤ n ∧ n < (isqrt n + 1) * (isqrt n + 1) :=
  sqrtGo_spec n n 0 (n+1) (by omega) (by nlinarith) (by omega) (by omega)

theorem isqrt_real_bounds (n : Nat) :
    (isqrt n : ℝ) ≤ Real.sqrt n ∧ Real.sqrt n < isqrt n + 1 := by
  obtain ⟨h1, h2⟩ := isqrt_spec n
  have hs : Real.sqrt (n : ℝ) ^ 2 = (n : ℝ) := Real.sq_sqrt (by positivity)
  have hnn : (0:ℝ) ≤ Real.sqrt n := Real.sqrt_nonneg _
  have c1 : ((isqrt n : ℝ)) * (isqrt n : ℝ) ≤ (n : ℝ) := by exact_mod_cast h1
  have c2 : (n : ℝ) < ((isqrt n : ℝ) + 1) * ((isqrt n : ℝ) + 1) := by exact_mod_cast h2
  constructor
  · nlinarith [sq_nonneg ((isqrt n : ℝ) - Real.sqrt n), sq_nonneg ((isqrt n : ℝ) + Real.sqrt n)]
  · nlinarith [sq_nonneg ((isqrt n : ℝ) + 1 - Real.sqrt n),
      sq_nonneg ((isqrt n : ℝ) + 1 + Real.sqrt n)]

theorem isqrtFloor_bounds (x : Int) (n : Nat) :
    (isqrtFloor x n : ℝ) ≤ (x : ℝ) * Real.sqrt n ∧
    (x : ℝ) * Real.sqrt n < (isqrtFloor x n : ℝ) + 1 := by
  unfold isqrtFloor
  set k := (x * x).toNat * n with hkdef
  set r := isqrt k with hrdef
  set S := |(x : ℝ)| * Real.sqrt n with hSdef
  have h0 : (((x * x).toNat : ℤ) : ℝ) = (x : ℝ) * (x : ℝ) := by
    rw [Int.toNat_of_nonneg (mul_self_nonneg x)]
    push_cast
    ring
  have hk : ((k : ℕ) : ℝ) = ((x : ℝ) * (x : ℝ)) * (n : ℝ) := by
    rw [hkdef]
    push_cast
    rw [← h0]
    push_cast
    ring
  have hsq : Real.sqrt ((k : ℕ) : ℝ) = S := by
    rw [hk, hSdef, Real.sqrt_mul (mul_self_nonneg _), ← Real.sqrt_mul_self_eq_abs]
  have hS0 : (0:ℝ) ≤ S := mul_nonneg (abs_nonneg _) (Real.sqrt_nonneg _)
  have hS2 : S * S = (k : ℝ) := by
    rw [← hsq]
    exact Real.mul_self_sqrt (by positivity)
  obtain ⟨hb1, hb2⟩ := isqrt_real_bounds k
  rw [hsq] at hb1 hb2
  by_cases hx : 0 ≤ x
  · rw [if_pos hx]
    have hxabs : |(x : ℝ)| = (x : ℝ) := abs_of_nonneg (by exact_mod_cast hx)
    rw [hSdef, hxabs] at hb1 hb2
    push_cast
    exact ⟨hb1, hb2⟩
  · rw [if_neg hx]
    have hxneg : (x : ℝ) < 0 := by exact_mod_cast not_le.mp hx
    have hxabs : |(x : ℝ)| = -(x : ℝ) := abs_of_neg hxneg
    have hxS : (x : ℝ) * Real.sqrt n = -S := by rw [hSdef, hxabs]; ring
    rw [hxS]
    by_cases hex : r * r = k
    · rw [if_pos hex]
      have hrS : S = (r : ℝ) := by
        have hc : ((r : ℝ)) * (r : ℝ) = (k : ℝ) := by exact_mod_cast hex
        nlinarith [hb1, hS0]
      push_cast
      rw [hrS]
      constructor
      · linarith
      · linarith
    · rw [if_neg hex]
      have hrk : r * r < k := lt_of_le_of_ne (isqrt_spec k).1 hex
      have hrS : (r : ℝ) < S := by
        have hc : ((r : ℝ)) * (r : ℝ) < (k : ℝ) := by exact_mod_cast hrk
        nlinarith [hb1, hS0]
      push_cast
      constructor
      · linarith
      · linarith

theorem roundStep_bounds (x : Int) (n : Nat) (hn : 0 < n) :
    89 * (x : ℝ) * Real.sqrt n - n ≤ 2 * n * (roundStep x n : ℝ) ∧
    2 * n * (roundStep x n : ℝ) ≤ 89 * (x : ℝ) * Real.sqrt n + n := by
  obtain ⟨hf1, hf2⟩ := isqrtFloor_bounds (89 * x) n
  have hd : (2 * (n : Int)) * ((isqrtFloor (89 * x) n + (n : Int)) / (2 * (n : Int)))
      + (isqrtFloor (89 * x) n + (n : Int)) % (2 * (n : Int))
      = isqrtFloor (89 * x) n + (n : Int) := Int.ediv_add_emod _ _
  have hr0 : 0 ≤ (isqrtFloor (89 * x) n + (n : Int)) % (2 * (n : Int)) :=
    Int.emod_nonneg _ (by omega)
  have hr1 : (isqrtFloor (89 * x) n + (n : Int)) % (2 * (n : Int)) < 2 * (n : Int) :=
    Int.emod_lt_of_pos _ (by omega)
  set F := isqrtFloor (89 * x) n with hFdef
  set m := (F + (n : Int)) / (2 * (n : Int)) with hmdef
  have hm1 : 2 * (n : Int) * m ≤ F + (n : Int) := by omega
  have hm2' : F ≤ 2 * (n : Int) * m + (n : Int) - 1 := by omega
  have hR1 : 2 * (n : ℝ) * (m : ℝ) ≤ 89 * (x : ℝ) * Real.sqrt n + n := by
    have hc : ((2 * (n : Int) * m : Int) : ℝ) ≤ ((F + (n : Int) : Int) : ℝ) := by exact_mod_cast hm1
    push_cast at hc
    push_cast at hf1
    linarith
  have hR2 : 89 * (x : ℝ) * Real.sqrt n - n < 2 * (n : ℝ) * (m : ℝ) := by
    have hc : ((F : Int) : ℝ) ≤ ((2 * (n : Int) * m + (n : Int) - 1 : Int) : ℝ) := by
      exact_mod_cast hm2'
    push_cast at hc
    push_cast at hf2
    linarith
  have hrs : roundStep x n =
      if isqrt n * isqrt n = n ∧ 89 * x + (isqrt n : Int) = 2 * (isqrt n : Int) * m ∧ m % 2 ≠ 0
        then m - 1 else m := by
    rw [roundStep]
  rw [hrs]
  by_cases htie : isqrt n * isqrt n = n ∧ 89 * x + (isqrt n : Int) = 2 * (isqrt n : Int) * m ∧
      m % 2 ≠ 0
  · rw [if_pos htie]
    obtain ⟨ht1, ht2, _⟩ := htie
    have hsn : Real.sqrt n = (isqrt n : ℝ) := by
      have hc : ((isqrt n : ℝ)) * (isqrt n : ℝ) = (n : ℝ) := by exact_mod_cast ht1
      rw [← hc, Real.sqrt_mul_self (by positivity)]
    have ht2R : 89 * (x : ℝ) + (isqrt n : ℝ) = 2 * (isqrt n : ℝ) * (m : ℝ) := by exact_mod_cast ht2
    have hnr : ((isqrt n : ℝ)) * (isqrt n : ℝ) = (n : ℝ) := by exact_mod_cast ht1
    have hxr : 89 * (x : ℝ) * (isqrt n : ℝ) = 2 * (n : ℝ) * (m : ℝ) - (n : ℝ) := by
      linear_combination (isqrt n : ℝ) * ht2R + (2 * (m : ℝ) - 1) * hnr
    have hn0 : (0:ℝ) ≤ (n : ℝ) := by positivity
    push_cast
    rw [hsn]
    constructor
    · linarith
    · linarith
  · rw [if_neg htie]
    exact ⟨le_of_lt hR2, hR1⟩

theorem stepSq_le (dx dy : Int) (n : Nat) (hne : n = ((dx * dx + dy * dy).toNat))
    (hbig : 7921 < 4 * n) :
    roundStep dx n * roundStep dx n + roundStep dy n * roundStep dy n ≤ 2070 := by
  have hn : 0 < n := by omega
  obtain ⟨hx1, hx2⟩ := roundStep_bounds dx n hn
  obtain ⟨hy1, hy2⟩ := roundStep_bounds dy n hn
  have hs : Real.sqrt n * Real.sqrt n = (n : ℝ) := Real.mul_self_sqrt (by positivity)
  have hs0 : (0:ℝ) ≤ Real.sqrt n := Real.sqrt_nonneg _
  have hnn : (dx : ℝ) * dx + (dy : ℝ) * dy = (n : ℝ) := by
    have h0 : ((n : ℕ) : ℤ) = dx * dx + dy * dy := by
      rw [hne]
      exact Int.toNat_of_nonneg (add_nonneg (mul_self_nonneg dx) (mul_self_nonneg dy))
    exact_mod_cast h0.symm
  have hn0 : (0:ℝ) < (n : ℝ) := by exact_mod_cast hn
  set mx := (roundStep dx n : ℝ) with hmx
  set my := (roundStep dy n : ℝ) with hmy
  set s := Real.sqrt (n : ℝ) with hsdef
  have key : (mx * mx + my * my) * (4 * (n:ℝ) * n) ≤ 2070 * (4 * (n:ℝ) * n) := by
    nlinarith [sq_nonneg (2 * (89 * (dx:ℝ) * s) - 89 * (2 * (n:ℝ) * mx - 89 * (dx:ℝ) * s)),
      sq_nonneg (2 * (89 * (dy:ℝ) * s) - 89 * (2 * (n:ℝ) * my - 89 * (dy:ℝ) * s)),
      mul_pos hn0 hn0, hx1, hx2, hy1, hy2, hs, hnn,
      sq_nonneg ((dx:ℝ) * s), sq_nonneg ((dy:ℝ) * s)]
  have hfin : mx * mx + my * my ≤ 2070 := by
    have h4 : (0:ℝ) < 4 * (n:ℝ) * n := by positivity
    nlinarith [key, h4]
  rw [hmx, hmy] at hfin
  exact_mod_cast hfin
theorem segWalk_cons (bx b_y et mx my : Int) (fuel : Nat) (cx cy ct : Int) :
    ∃ nt nx ny rest,
      segWalk bx b_y et mx my (fuel + 1) cx cy ct = ⟨ct, nt, cx, cy, nx, ny⟩ :: rest := by
  match fuel with
  | 0 => exact ⟨min (ct + 30) et, bx, b_y, [], rfl⟩
  | Nat.succ k =>
    rw [segWalk]
    by_cases hb : (cx + mx = bx ∧ cy + my = b_y) ∨ et ≤ ct + 30
    · exact ⟨ct + 30, cx + mx, cy + my, [], by rw [if_pos hb]⟩
    · exact ⟨ct + 30, cx + mx, cy + my, _, by rw [if_neg hb]⟩

theorem segWalk_dur (bx b_y et mx my : Int) :
    ∀ (fuel : Nat) (cx cy ct : Int), ∀ s ∈ segWalk bx b_y et mx my fuel cx cy ct,
      s.end_tick - s.start_tick ≤ 30 := by
  intro fuel
  induction fuel using Nat.strong_induction_on with
  | _ fuel ih =>
    match fuel with
    | 0 => intro cx cy ct s hs; simp [segWalk] at hs
    | 1 =>
      intro cx cy ct s hs
      simp only [segWalk, List.mem_singleton] at hs
      subst hs
      simp only []
      omega
    | Nat.succ (Nat.succ k) =>
      intro cx cy ct s hs
      rw [segWalk] at hs
      rcases List.mem_cons.mp hs with h | h
      · subst h; simp only []; omega
      · by_cases hb : (cx + mx = bx ∧ cy + my = b_y) ∨ et ≤ ct + 30
        · rw [if_pos hb] at h; simp at h
        · rw [if_neg hb] at h
          exact ih (k + 1) (by omega) _ _ _ s h

theorem segWalk_dropLast (bx b_y et mx my : Int) :
    ∀ (fuel : Nat) (cx cy ct : Int),
      ∀ s ∈ (segWalk bx b_y et mx my fuel cx cy ct).dropLast,
        s.ex - s.sx = mx ∧ s.ey - s.sy = my := by
  intro fuel
  induction fuel using Nat.strong_induction_on with
  | _ fuel ih =>
    match fuel with
    | 0 => intro cx cy ct s hs; simp [segWalk] at hs
    | 1 => intro cx cy ct s hs; simp [segWalk] at hs
    | Nat.succ (Nat.succ k) =>
      intro cx cy ct s hs
      rw [segWalk] at hs
      by_cases hb : (cx + mx = bx ∧ cy + my = b_y) ∨ et ≤ ct + 30
      · rw [if_pos hb] at hs; simp at hs
      · rw [if_neg hb] at hs
        obtain ⟨nt, nx, ny, rest, hw⟩ := segWalk_cons bx b_y et mx my k (cx + mx) (cy + my) (ct + 30)
        rw [hw] at hs
        rw [List.dropLast_cons₂] at hs
        rcases List.mem_cons.mp hs with h | h
        · subst h; constructor <;> (simp only []; ring)
        · have h' := ih (k + 1) (by omega) (cx + mx) (cy + my) (ct + 30) s
          rw [hw] at h'
          exact h' h

theorem segWalk_chain (bx b_y et mx my : Int) :
    ∀ (fuel : Nat) (cx cy ct : Int),
      chainOK (segWalk bx b_y et mx my fuel cx cy ct) = true := by
  intro fuel
  induction fuel using Nat.strong_induction_on with
  | _ fuel ih =>
    match fuel with
    | 0 => intro cx cy ct; simp [segWalk, chainOK]
    | 1 => intro cx cy ct; simp [segWalk, chainOK]
    | Nat.succ (Nat.succ k) =>
      intro cx cy ct
      rw [segWalk]
      by_cases hb : (cx + mx = bx ∧ cy + my = b_y) ∨ et ≤ ct + 30
      · rw [if_pos hb]; simp [chainOK]
      · rw [if_neg hb]
        obtain ⟨nt, nx, ny, rest, hw⟩ := segWalk_cons bx b_y et mx my k (cx + mx) (cy + my) (ct + 30)
        rw [hw, chainOK]
        have hc := ih (k + 1) (by omega) (cx + mx) (cy + my) (ct + 30)
        rw [hw] at hc
        rw [hc]
        simp

theorem segWalk_last (bx b_y et mx my : Int) :
    ∀ (fuel : Nat) (cx cy ct : Int), 1 ≤ fuel → ct + 30 * ((fuel : Int) - 1) < et →
      ∀ s, (segWalk bx b_y et mx my fuel cx cy ct).getLast? = some s →
        s.ex = bx ∧ s.ey = b_y ∧ s.end_tick ≤ et := by
  intro fuel
  induction fuel using Nat.strong_induction_on with
  | _ fuel ih =>
    match fuel with
    | 0 => intro cx cy ct h1; omega
    | 1 =>
      intro cx cy ct h1 h2 s hs
      simp only [segWalk, List.getLast?_singleton, Option.some_inj] at hs
      subst hs
      refine ⟨rfl, rfl, ?_⟩
      simp only []
      omega
    | Nat.succ (Nat.succ k) =>
      intro cx cy ct h1 h2 s hs
      rw [segWalk] at hs
      push_cast at h2
      by_cases hprox : cx + mx = bx ∧ cy + my = b_y
      · rw [if_pos (Or.inl hprox)] at hs
        simp only [List.getLast?_singleton, Option.some_inj] at hs
        subst hs
        exact ⟨hprox.1, hprox.2, by simp only []; omega⟩
      · have hnb : ¬((cx + mx = bx ∧ cy + my = b_y) ∨ et ≤ ct + 30) := by
          push_neg
          exact ⟨fun ha hb => hprox ⟨ha, hb⟩, by omega⟩
        rw [if_neg hnb] at hs
        obtain ⟨nt, nx, ny, rest, hw⟩ := segWalk_cons bx b_y et mx my k (cx + mx) (cy + my) (ct + 30)
        rw [hw] at hs
        have := ih (k + 1) (by omega) (cx + mx) (cy + my) (ct + 30) (by omega) (by push_cast; omega) s
        rw [hw] at this
        exact this hs

theorem segCount_pos (n : Nat) (h : 7921 < 4 * n) : 1 ≤ segCount n := by
  have hspec := isqrt_spec (4 * n)
  have hr : 89 ≤ isqrt (4 * n) := by nlinarith [hspec.1, hspec.2]
  unfold segCount
  split
  · omega
  · omega

/-- C1: as stated the claim fails in two ways. A single-segment decomposition
(distance within the 4.45 budget) spans the full original tick range, which
can exceed 30 ticks: decompose_move_to_call(0, 300, 0, 0, 2.0, 0) yields one
segment of 300 ticks. And an intermediate segment's travel distance can
exceed 4.45 units by the one-decimal rounding of the step:
decompose_move_to_call(0, 600, 0, 0, 8.4, 3.0) steps by (4.2, 1.5) whose
length is sqrt(19.89) > 4.45 (19.89 units^2 = 1989 tenths^2 > 1980). -/
theorem C1_counterexample :
    ((decomposeCore 0 300 0 0 20 0).all fun s =>
        decide (s.end_tick - s.start_tick ≤ 30)) = false ∧
    ((decomposeCore 0 600 0 0 84 30).dropLast.all fun s =>
        decide ((s.ex - s.sx) * (s.ex - s.sx) + (s.ey - s.sy) * (s.ey - s.sy) ≤ 1980)) = false := by
  constructor
  · decide
  · decide

/-- C1 (amended): in a multi-segment decomposition (squared distance above the
budget, 4n > 7921 tenths^2) every emitted segment spans at most 30 ticks, and
every segment but the last (in particular every intermediate segment) travels
at most sqrt(20.70) < 4.55 units: the 4.45 budget plus the one-decimal
rounding slack of up to 0.05 per axis. A single-segment decomposition instead
spans the full original tick range. -/
theorem C1_move_segment_bounds (st et ax ay bx b_y : Int)
    (h : 7921 < 4 * moveN ax ay bx b_y) :
    ((decomposeCore st et ax ay bx b_y).all fun s =>
        decide (s.end_tick - s.start_tick ≤ 30)) = true ∧
    ((decomposeCore st et ax ay bx b_y).dropLast.all fun s =>
        decide ((s.ex - s.sx) * (s.ex - s.sx) + (s.ey - s.sy) * (s.ey - s.sy) ≤ 2070)) = true := by
  unfold decomposeCore
  rw [if_neg (by omega)]
  constructor
  · rw [List.all_eq_true]
    intro s hs
    exact decide_eq_true (segWalk_dur _ _ _ _ _ _ _ _ _ s hs)
  · rw [List.all_eq_true]
    intro s hs
    obtain ⟨h1, h2⟩ := segWalk_dropLast _ _ _ _ _ _ _ _ _ s hs
    rw [h1, h2]
    exact decide_eq_true
      (stepSq_le (bx - ax) (b_y - ay) (moveN ax ay bx b_y) rfl h)

/-- C1 witness: the multi-segment decomposition of
decompose_move_to_call(0, 600, 0, 0, 8.4, 3.0). -/
theorem C1_move_segment_bounds_witness :
    7921 < 4 * moveN 0 0 84 30 ∧
    ((decomposeCore 0 600 0 0 84 30).all fun s =>
        decide (s.end_tick - s.start_tick ≤ 30)) = true ∧
    ((decomposeCore 0 600 0 0 84 30).dropLast.all fun s =>
        decide ((s.ex - s.sx) * (s.ex - s.sx) + (s.ey - s.sy) * (s.ey - s.sy) ≤ 2070)) = true :=
  ⟨by decide, (C1_move_segment_bounds 0 600 0 0 84 30 (by decide)).1,
    (C1_move_segment_bounds 0 600 0 0 84 30 (by decide)).2⟩

/-- C3: the claim fails on the code: when the tick budget runs out before the
walk reaches the final segment, the last emitted segment neither ends on the
destination nor respects the original end tick.
decompose_move_to_call(0, 10, 0, 0, 8.4, 3.0) emits a single intermediate
segment ending at (4.2, 1.5) - not the destination (8.4, 3.0) - at tick 30,
which exceeds the original end tick 10. -/
theorem C3_counterexample :
    decomposeCore 0 10 0 0 84 30 = [⟨0, 30, 0, 0, 42, 15⟩] ∧
    lastOK 84 30 10 (decomposeCore 0 10 0 0 84 30) = false := by
  constructor
  · decide
  · decide

/-- C3 (amended): consecutive segments always chain exactly (each segment's
end position and end tick equal the next segment's start position and start
tick); and whenever the walk can reach its final segment - in the
single-segment case, or when the original tick range exceeds 30 ticks per
non-final segment (start + 30 * (num_segments - 1) < end) - the last emitted
segment ends exactly on the rounded destination with an end tick at most the
original end tick. -/
theorem C3_decomposition_invariants (st et ax ay bx b_y : Int) :
    chainOK (decomposeCore st et ax ay bx b_y) = true ∧
    ((7921 < 4 * moveN ax ay bx b_y →
        st + 30 * ((segCount (moveN ax ay bx b_y) : Int) - 1) < et) →
      lastOK bx b_y et (decomposeCore st et ax ay bx b_y) = true) := by
  constructor
  · unfold decomposeCore
    split
    · rfl
    · exact segWalk_chain _ _ _ _ _ _ _ _ _
  · intro hq
    unfold decomposeCore
    by_cases hbig : 7921 < 4 * moveN ax ay bx b_y
    · rw [if_neg (by omega)]
      have h1 := segCount_pos (moveN ax ay bx b_y) hbig
      have h2 := hq hbig
      unfold lastOK
      match hlast : (segWalk bx b_y et (roundStep (bx - ax) (moveN ax ay bx b_y))
          (roundStep (b_y - ay) (moveN ax ay bx b_y))
          (segCount (moveN ax ay bx b_y)) ax ay st).getLast? with
      | none => rfl
      | some s =>
        obtain ⟨e1, e2, e3⟩ := segWalk_last bx b_y et _ _ _ ax ay st h1 h2 s hlast
        simp [Option.all, e1, e2, e3]
    · rw [if_pos (by omega)]
      simp [lastOK, Option.all]

/-- C3 witness: decompose_move_to_call(0, 600, 0, 0, 8.4, 3.0) chains and its
last segment lands exactly on (8.4, 3.0) at tick 60, within end tick 600. -/
theorem C3_decomposition_invariants_witness :
    chainOK (decomposeCore 0 600 0 0 84 30) = true ∧
    lastOK 84 30 600 (decomposeCore 0 600 0 0 84 30) = true :=
  ⟨(C3_decomposition_invariants 0 600 0 0 84 30).1,
    (C3_decomposition_invariants 0 600 0 0 84 30).2 (fun _ => by decide)⟩

theorem inflateGo_short (dec : List Nat → Option (List Nat)) (f : Nat) (tail : List Nat)
    (h : tail.length < 4) : inflateGo dec f tail = some [] := by
  match tail, h with
  | [], _ => match f with
    | 0 => rfl
    | _+1 => rfl
  | [a], _ => match f with
    | 0 => rfl
    | _+1 => rfl
  | [a, b], _ => match f with
    | 0 => rfl
    | _+1 => rfl
  | [a, b, c], _ => match f with
    | 0 => rfl
    | _+1 => rfl

theorem inflateGo_fuel (dec : List Nat → Option (List Nat)) :
    ∀ (N : Nat) (raw : List Nat), raw.length ≤ N → ∀ f g, raw.length ≤ f →
      raw.length ≤ g → inflateGo dec f raw = inflateGo dec g raw := by
  intro N
  induction N with
  | zero =>
    intro raw h f g hf hg
    match raw with
    | [] => rw [inflateGo_short dec f [] (by simp), inflateGo_short dec g [] (by simp)]
  | succ N ih =>
    intro raw h f g hf hg
    by_cases hshort : raw.length < 4
    · rw [inflateGo_short dec f raw hshort, inflateGo_short dec g raw hshort]
    · match raw, f, g with
      | b0 :: b1 :: b2 :: b3 :: rest, f'+1, g'+1 =>
        simp only [inflateGo]
        have hr : (rest.drop (le32 b0 b1 b2 b3)).length ≤ N := by
          have := List.length_drop (le32 b0 b1 b2 b3) rest
          simp only [List.length_cons] at h
          omega
        rw [ih (rest.drop (le32 b0 b1 b2 b3)) hr f' g'
          (by
            have := List.length_drop (le32 b0 b1 b2 b3) rest
            simp only [List.length_cons] at hf
            omega)
          (by
            have := List.length_drop (le32 b0 b1 b2 b3) rest
            simp only [List.length_cons] at hg
            omega)]
      | b0 :: b1 :: b2 :: b3 :: rest, 0, _ => simp at hf
      | b0 :: b1 :: b2 :: b3 :: rest, _, 0 => simp at hg
      | [], _, _ => simp at hshort
      | [a], _, _ => simp at hshort
      | [a, b], _, _ => simp at hshort
      | [a, b, c], _, _ => simp at hshort

theorem le4_le32 (n : Nat) (h : n < 4294967296) :
    le32 (n % 256) (n / 256 % 256) (n / 65536 % 256) (n / 16777216 % 256) = n := by
  unfold le32
  omega

theorem inflate_chunks_append (dec : List Nat → Option (List Nat)) :
    ∀ (blocks : List (List Nat)) (rest : List Nat),
      (∀ b ∈ blocks, (dec b).isSome) → (∀ b ∈ blocks, b.length < 4294967296) →
      inflate_chunks dec (encodeChunks blocks ++ rest) =
        (inflate_chunks dec rest).map (fun t => decodeAll dec blocks ++ t) := by
  intro blocks
  induction blocks with
  | nil =>
    intro rest _ _
    simp only [encodeChunks, decodeAll, List.nil_append]
    cases inflate_chunks dec rest <;> simp
  | cons b t ih =>
    intro rest hd h32
    obtain ⟨db, hdb⟩ := Option.isSome_iff_exists.mp (hd b (by simp))
    have hb32 : b.length < 4294967296 := h32 b (by simp)
    have hshape : encodeChunks (b :: t) ++ rest =
        (b.length % 256) :: (b.length / 256 % 256) :: (b.length / 65536 % 256) ::
        (b.length / 16777216 % 256) :: (b ++ (encodeChunks t ++ rest)) := by
      simp [encodeChunks, le4]
    rw [hshape]
    unfold inflate_chunks
    have hlen : ((b.length % 256) :: (b.length / 256 % 256) :: (b.length / 65536 % 256) ::
        (b.length / 16777216 % 256) :: (b ++ (encodeChunks t ++ rest))).length =
        (b ++ (encodeChunks t ++ rest)).length + 4 := by simp
    rw [hlen]
    simp only [inflateGo]
    rw [le4_le32 b.length hb32]
    rw [List.take_left b (encodeChunks t ++ rest), List.drop_left b (encodeChunks t ++ rest),
      hdb]
    have hfuel := inflateGo_fuel dec ((b ++ (encodeChunks t ++ rest)).length + 3)
      (encodeChunks t ++ rest) (by simp; omega)
      ((b ++ (encodeChunks t ++ rest)).length + 3) ((encodeChunks t ++ rest).length)
      (by simp; omega) (le_refl _)
    rw [hfuel]
    have hih := ih rest (fun x hx => hd x (by simp [hx])) (fun x hx => h32 x (by simp [hx]))
    unfold inflate_chunks at hih
    rw [hih]
    have hdec : decodeAll dec (b :: t) = db ++ decodeAll dec t := by
      simp [decodeAll, hdb]
    rw [hdec]
    cases hx : inflateGo dec rest.length rest with
    | none => simp
    | some v => simp

/-- C2: the claim fails on the code. When the final length prefix is present
but the block is shorter than declared, inflate_chunks still slices the short
block and hands it to zlib.decompress, which raises on a truncated stream
(modelled by a decompressor returning none on the partial block); nothing is
dropped silently and the bytes decoded so far are lost. Concretely: a valid
one-byte block [7] (declared length 1) followed by the prefix declaring 2
bytes with only [9] present raises instead of returning the decoded [42]. -/
theorem C2_counterexample :
    inflate_chunks (fun b => if b = [7] then some [42] else none)
      [1, 0, 0, 0, 7, 2, 0, 0, 0, 9] = none ∧
    inflate_chunks (fun b => if b = [7] then some [42] else none)
      [1, 0, 0, 0, 7, 2, 0, 0, 0, 9] ≠ some [42] := by
  constructor
  · decide
  · decide

/-- C2 (amended): the decoder stops cleanly and returns the bytes decoded so
far only when the *length prefix itself* is truncated (fewer than 4 bytes
remain); when the prefix is present and the following block is shorter than
declared, the truncated block is still passed to the decompressor and a
decompression failure propagates - the function raises rather than dropping
the partial block. Stated for every decompressor, every well-formed block
sequence and every short tail. -/
theorem C2_truncated_tail (dec : List Nat → Option (List Nat))
    (blocks : List (List Nat)) (tail shortBlock : List Nat) (l : Nat)
    (hd : ∀ b ∈ blocks, (dec b).isSome) (h32 : ∀ b ∈ blocks, b.length < 4294967296) :
    (tail.length < 4 →
      inflate_chunks dec (encodeChunks blocks ++ tail) = some (decodeAll dec blocks)) ∧
    (shortBlock.length < l → l < 4294967296 → dec shortBlock = none →
      inflate_chunks dec (encodeChunks blocks ++ (le4 l ++ shortBlock)) = none) := by
  constructor
  · intro htail
    rw [inflate_chunks_append dec blocks tail hd h32]
    unfold inflate_chunks
    rw [inflateGo_short dec tail.length tail htail]
    simp
  · intro hshort h32l hdec
    rw [inflate_chunks_append dec blocks (le4 l ++ shortBlock) hd h32]
    have hnone : inflate_chunks dec (le4 l ++ shortBlock) = none := by
      unfold inflate_chunks
      have hshape : le4 l ++ shortBlock =
          (l % 256) :: (l / 256 % 256) :: (l / 65536 % 256) :: (l / 16777216 % 256) ::
            shortBlock := by simp [le4]
      rw [hshape]
      have hlen : ((l % 256) :: (l / 256 % 256) :: (l / 65536 % 256) ::
          (l / 16777216 % 256) :: shortBlock).length = shortBlock.length + 4 := by simp
      rw [hlen]
      simp only [inflateGo]
      rw [le4_le32 l h32l]
      have htk : shortBlock.take l = shortBlock := List.take_of_length_le (by omega)
      rw [htk, hdec]
      rfl
    rw [hnone]
    rfl

/-- C2 witness: with the decompressor accepting exactly the block [7], the
encoded block list [[7]] followed by the short tail [9, 9] decodes cleanly to
[42], while the same blocks followed by a declared-length-5 prefix and the
one-byte partial block [8] (which the decompressor rejects) raise. -/
theorem C2_truncated_tail_witness :
    inflate_chunks (fun b => if b = [7] then some [42] else none)
      (encodeChunks [[7]] ++ [9, 9]) = some (decodeAll
        (fun b => if b = [7] then some [42] else none) [[7]]) ∧
    inflate_chunks (fun b => if b = [7] then some [42] else none)
      (encodeChunks [[7]] ++ (le4 5 ++ [8])) = none :=
  ⟨(C2_truncated_tail (fun b => if b = [7] then some [42] else none) [[7]] [9, 9] [8] 5
      (by decide) (by decide)).1 (by decide),
    (C2_truncated_tail (fun b => if b = [7] then some [42] else none) [[7]] [9, 9] [8] 5
      (by decide) (by decide)).2 (by decide) (by decide) (by decide)⟩

/-- C4: classification of legacy collated-harvest records. For a legacy record
(no action discriminator) with resolved end time tk, numeric duration d,
string entity e and coordinate fields, normalization emits exactly one call:
a timed harvest_resource spanning start_tick = tk - d to end_tick = tk when
the entity is a standard harvestable, else an instantaneous pickup_entity at
tick = tk; either way a single action is produced. -/
theorem C4_harvest_classification (r : Record) (e : String) (tk d : Int)
    (xv yv : JVal)
    (hact : jget r "action" = none)
    (htime : get_time_from_record r = some tk)
    (hdur : jget r "duration_ticks" = some (.num d))
    (hent : jget r "entity" = some (.str e))
    (hx : jget r "x" = some xv) (hy : jget r "y" = some yv) :
    transform_record_to_python_call r "harvest_resource_collated" =
      some [⟨if is_standard_factorio_resource e then
          "harvest_resource(start_tick=" ++ intToDec (tk - d) ++ ", end_tick=" ++
            intToDec tk ++ ", entity='" ++ e ++ "', x=" ++ pyStr xv ++ ", y=" ++
            pyStr yv ++ ")"
        else
          "pickup_entity(tick=" ++ intToDec tk ++ ", entity='" ++ e ++ "', x=" ++
            pyStr xv ++ ", y=" ++ pyStr yv ++ ")",
        J2.base (.num (tk - d))⟩] := by
  unfold transform_record_to_python_call
  rw [if_neg (by decide)]
  unfold handle_action_based_record
  rw [hact]
  simp only []
  rw [htime]
  simp only [Option.bind_eq_bind, Option.some_bind]
  rw [if_pos (by decide)]
  rw [hdur, hent, hx, hy]
  simp only [Option.some_bind, Option.getD_some]
  by_cases hstd : is_standard_factorio_resource e
  · rw [if_pos hstd, if_pos hstd]
    rfl
  · rw [if_neg hstd, if_neg hstd]
    rfl

/-- C4 witness: harvesting iron-ore for 120 ticks ending at tick 500 yields
one harvest_resource call spanning ticks 380 to 500; harvesting
crash-site-spaceship-wreck (not a standard resource) ending at tick 500
yields one pickup_entity call whose tick argument is 500. -/
theorem C4_harvest_classification_witness :
    transform_record_to_python_call
      [("t", .num 500), ("duration_ticks", .num 120), ("entity", .str "iron-ore"),
        ("x", .num 12), ("y", .num 34)] "harvest_resource_collated" =
      some [⟨"harvest_resource(start_tick=380, end_tick=500, entity='iron-ore', x=12, y=34)",
        J2.base (.num 380)⟩] ∧
    transform_record_to_python_call
      [("t", .num 500), ("duration_ticks", .num 120),
        ("entity", .str "crash-site-spaceship-wreck"), ("x", .num 12), ("y", .num 34)]
      "harvest_resource_collated" =
      some [⟨"pickup_entity(tick=500, entity='crash-site-spaceship-wreck', x=12, y=34)",
        J2.base (.num 380)⟩] := by
  constructor
  · rw [C4_harvest_classification
      [("t", .num 500), ("duration_ticks", .num 120), ("entity", .str "iron-ore"),
        ("x", .num 12), ("y", .num 34)] "iron-ore" 500 120 (.num 12) (.num 34)
      (by decide) (by decide) (by decide) (by decide) (by decide) (by decide)]
    decide
  · rw [C4_harvest_classification
      [("t", .num 500), ("duration_ticks", .num 120),
        ("entity", .str "crash-site-spaceship-wreck"), ("x", .num 12), ("y", .num 34)]
      "crash-site-spaceship-wreck" 500 120 (.num 12) (.num 34)
      (by decide) (by decide) (by decide) (by decide) (by decide) (by decide)]
    decide

/-- C10: a legacy collated-harvest record classified as non-standard becomes a
pickup_entity call whose rendered tick argument is the harvest end tick tk,
while its sort_tick is tk - d, the start of the original harvest interval -
so the pickup is scheduled at the interval's start, not at the pickup tick
(the two differ whenever the duration is non-zero). -/
theorem C10_pickup_sort_tick (r : Record) (e : String) (tk d : Int) (xv yv : JVal)
    (hact : jget r "action" = none)
    (htime : get_time_from_record r = some tk)
    (hdur : jget r "duration_ticks" = some (.num d))
    (hent : jget r "entity" = some (.str e))
    (hx : jget r "x" = some xv) (hy : jget r "y" = some yv)
    (hns : is_standard_factorio_resource e = false) :
    transform_record_to_python_call r "harvest_resource_collated" =
      some [⟨"pickup_entity(tick=" ++ intToDec tk ++ ", entity='" ++ e ++ "', x=" ++
        pyStr xv ++ ", y=" ++ pyStr yv ++ ")", J2.base (.num (tk - d))⟩] ∧
    (d ≠ 0 → tk - d ≠ tk) := by
  constructor
  · unfold transform_record_to_python_call
    rw [if_neg (by decide)]
    unfold handle_action_based_record
    rw [hact]
    simp only []
    rw [htime]
    simp only [Option.bind_eq_bind, Option.some_bind]
    rw [if_pos (by decide)]
    rw [hdur, hent, hx, hy]
    simp only [Option.some_bind, Option.getD_some]
    rw [if_neg (by rw [hns]; exact Bool.false_ne_true)]
    rfl
  · omega

/-- C10 witness: the crash-site-spaceship-wreck harvest of 120 ticks ending at
tick 500 becomes pickup_entity(tick=500, ...) with sort_tick 380. -/
theorem C10_pickup_sort_tick_witness :
    transform_record_to_python_call
      [("t", .num 500), ("duration_ticks", .num 120),
        ("entity", .str "crash-site-spaceship-wreck"), ("x", .num 7), ("y", .num 8)]
      "harvest_resource_collated" =
      some [⟨"pickup_entity(tick=500, entity='crash-site-spaceship-wreck', x=7, y=8)",
        J2.base (.num 380)⟩] ∧ ((120 : Int) ≠ 0 → (500 : Int) - 120 ≠ 500) := by
  have h := C10_pickup_sort_tick
    [("t", .num 500), ("duration_ticks", .num 120),
      ("entity", .str "crash-site-spaceship-wreck"), ("x", .num 7), ("y", .num 8)]
    "crash-site-spaceship-wreck" 500 120 (.num 7) (.num 8)
    (by decide) (by decide) (by decide) (by decide) (by decide) (by decide) (by decide)
  constructor
  · rw [h.1]
    decide
  · exact h.2

theorem jget_map_setKey {α : Type} (k k' : String) (v : α) (hne : k' ≠ k) :
    ∀ (r : List (String × α)),
      jget (r.map (fun p => if p.1 == k then (k, v) else p)) k' = jget r k' := by
  intro r
  induction r with
  | nil => rfl
  | cons p t ih =>
    by_cases hpk : p.1 = k
    · have hfp : (if (p.1 == k) = true then (k, v) else p) = (k, v) := by simp [hpk]
      have h2 : (k == k') = false := by
        rw [beq_eq_false_iff_ne]
        exact fun h => hne h.symm
      have h3 : (p.1 == k') = false := by
        rw [beq_eq_false_iff_ne, hpk]
        exact fun h => hne h.symm
      simp only [List.map_cons, hfp, jget, List.find?_cons, h2, h3]
      exact ih
    · have hfp : (if (p.1 == k) = true then (k, v) else p) = p := by simp [hpk]
      simp only [List.map_cons, hfp, jget, List.find?_cons]
      cases h2 : (p.1 == k') with
      | true => rfl
      | false => exact ih

theorem jget_append_singleton {α : Type} (k k' : String) (v : α) (hne : k' ≠ k) :
    ∀ (r : List (String × α)), jget (r ++ [(k, v)]) k' = jget r k' := by
  intro r
  induction r with
  | nil =>
    have h2 : (k == k') = false := by
      rw [beq_eq_false_iff_ne]
      exact fun h => hne h.symm
    simp only [List.nil_append, jget, List.find?_cons, List.find?_nil, h2]
  | cons p t ih =>
    simp only [List.cons_append, jget, List.find?_cons]
    cases h2 : (p.1 == k') with
    | true => rfl
    | false => exact ih

theorem jget_setKey_ne {α : Type} (r : List (String × α)) (k k' : String) (v : α)
    (hne : k' ≠ k) : jget (setKey r k v) k' = jget r k' := by
  unfold setKey
  by_cases hany : r.any (fun p => p.1 == k)
  · rw [if_pos hany]
    exact jget_map_setKey k k' v hne r
  · rw [if_neg hany]
    exact jget_append_singleton k k' v hne r

theorem get_time_setKey (r : Record) (v : JVal) :
    get_time_from_record (setKey r "_source_file" v) = get_time_from_record r := by
  unfold get_time_from_record
  rw [jget_setKey_ne r "_source_file" "t" v (by decide),
    jget_setKey_ne r "_source_file" "tick" v (by decide)]

theorem ingestFile_eq (fname : String) : ∀ (lines : List Record),
    ingestFile fname lines =
      ((lines.filter (fun r => !crashB r && (get_time_from_record r).isSome)).map
        (fun r => setKey r "_source_file" (JVal.str fname)),
       lines.countP (fun r => crashB r)) := by
  intro lines
  induction lines with
  | nil => rfl
  | cons r rest ih =>
    unfold ingestFile
    rw [ih]
    by_cases hc : crashB r
    · simp [hc, List.filter_cons, List.countP_cons]
    · by_cases ht : (get_time_from_record r).isSome
      · simp [hc, ht, List.filter_cons, List.countP_cons]
      · simp [hc, ht, List.filter_cons, List.countP_cons]

/-- C9: the crash-site ingestion filter. For every input file, the kept
records of read_and_combine_jsonls are exactly the non-crash-site,
time-valid records (source-tagged, max_time-filtered, time-sorted): a record
whose JSON serialization contains 'crash-site' (case-insensitively, via the
lower-cased dump) is excluded before normalization ever sees it, and the
excluded records are counted separately. -/
theorem C9_crash_site_filter (fname : String) (lines : List Record) (mt : Option Int) :
    (read_and_combine_jsonls fname lines mt).2 = lines.countP (fun r => crashB r) ∧
    (read_and_combine_jsonls fname lines mt).1 =
      (((lines.filter (fun r => !crashB r && (get_time_from_record r).isSome)).map
          (fun r => setKey r "_source_file" (JVal.str fname))).filter
        (fun r => match mt with | none => true | some m => decide (timeKey r ≤ m))).mergeSort
        recTimeLe := by
  unfold read_and_combine_jsonls
  rw [ingestFile_eq]
  constructor
  · rfl
  · cases mt with
    | none => simp
    | some m => rfl

/-- C5: time resolution and its batch behavior. get_time_from_record returns
the single parsed alias when exactly one of 't'/'tick' parses to an int, the
larger when both parse, and raises (none) exactly when neither parses; during
ingestion a record whose time resolution fails is skipped while the batch
continues, so every kept record has a resolvable time. -/
theorem C5_time_resolution (r : Record) (fname : String) (lines : List Record)
    (r' : Record) :
    (get_time_from_record r =
      match (jget r "t").bind pyToIntJ, (jget r "tick").bind pyToIntJ with
      | some a, some b => some (max a b)
      | some a, none => some a
      | none, some b => some b
      | none, none => none) ∧
    (r' ∈ (ingestFile fname lines).1 → (get_time_from_record r').isSome) := by
  constructor
  · unfold get_time_from_record
    rcases h1 : jget r "t" with _ | v
    · rcases h2 : jget r "tick" with _ | w
      · simp
      · rcases h3 : pyToIntJ w with _ | b
        · simp [h3]
        · simp [h3]
    · rcases h3 : pyToIntJ v with _ | a
      · rcases h2 : jget r "tick" with _ | w
        · simp [h3]
        · rcases h4 : pyToIntJ w with _ | b
          · simp [h3, h4]
          · simp [h3, h4]
      · rcases h2 : jget r "tick" with _ | w
        · simp [h3]
        · rcases h4 : pyToIntJ w with _ | b
          · simp [h3, h4]
          · simp [h3, h4, List.foldl]
  · intro hmem
    rw [ingestFile_eq] at hmem
    simp only [List.mem_map, List.mem_filter] at hmem
    obtain ⟨r0, ⟨_, hok⟩, hset⟩ := hmem
    have h2 : (get_time_from_record r0).isSome := by
      have := Bool.and_elim_right hok
      simpa using this
    rw [← hset, get_time_setKey]
    exact h2

/-- C5 witness: a record with t=50 resolves to 50; with t=50 and tick=70 it
resolves to 70; a record with neither alias fails and is skipped during
ingestion while the valid record of the same batch is kept. -/
theorem C5_time_resolution_witness :
    (get_time_from_record [("t", JVal.num 50), ("tick", JVal.num 70)] =
      match (jget [("t", JVal.num 50), ("tick", JVal.num 70)] "t").bind pyToIntJ,
        (jget [("t", JVal.num 50), ("tick", JVal.num 70)] "tick").bind pyToIntJ with
      | some a, some b => some (max a b)
      | some a, none => some a
      | none, some b => some b
      | none, none => none) ∧
    (setKey [("t", JVal.num 50)] "_source_file" (JVal.str "f.jsonl") ∈
        (ingestFile "f.jsonl" [[("entity", JVal.str "x")], [("t", JVal.num 50)]]).1 →
      (get_time_from_record (setKey [("t", JVal.num 50)] "_source_file"
        (JVal.str "f.jsonl"))).isSome) :=
  C5_time_resolution [("t", JVal.num 50), ("tick", JVal.num 70)] "f.jsonl"
    [[("entity", JVal.str "x")], [("t", JVal.num 50)]]
    (setKey [("t", JVal.num 50)] "_source_file" (JVal.str "f.jsonl"))

theorem mergeSort_filter_tick (l : List TickCall) (k : Int) :
    (l.mergeSort tickLe).filter (fun c => decide (c.tick = k)) =
      l.filter (fun c => decide (c.tick = k)) := by
  have htrans : ∀ (a b c : TickCall), tickLe a b → tickLe b c → tickLe a c := by
    intro a b c
    unfold tickLe
    simp only [decide_eq_true_eq]
    omega
  have htotal : ∀ (a b : TickCall), tickLe a b || tickLe b a := by
    intro a b
    unfold tickLe
    simp only [Bool.or_eq_true, decide_eq_true_eq]
    omega
  have hpw : (l.filter (fun c => decide (c.tick = k))).Pairwise (fun a b => tickLe a b) := by
    apply List.pairwise_of_forall_mem_list
    intro a ha b hb
    have ha' := (List.mem_filter.mp ha).2
    have hb' := (List.mem_filter.mp hb).2
    simp only [decide_eq_true_eq] at ha' hb'
    unfold tickLe
    simp only [decide_eq_true_eq]
    omega
  have hsub : List.Sublist (l.filter (fun c => decide (c.tick = k))) (l.mergeSort tickLe) :=
    List.sublist_mergeSort htrans htotal hpw (List.filter_sublist l)
  have hsub2 : List.Sublist (l.filter (fun c => decide (c.tick = k)))
      ((l.mergeSort tickLe).filter (fun c => decide (c.tick = k))) := by
    have h2 := hsub.filter (fun c => decide (c.tick = k))
    simpa using h2
  have hperm : List.Perm ((l.mergeSort tickLe).filter (fun c => decide (c.tick = k)))
      (l.filter (fun c => decide (c.tick = k))) :=
    (List.mergeSort_perm l tickLe).filter _
  exact (hsub2.eq_of_length hperm.length_eq.symm).symm

/-- C6: the trace written by save_python_calls is sorted non-decreasing by
sort_tick, and actions with equal sort_tick keep their relative input order
(the sort is stable): for every key k, the k-keyed subsequence of the sorted
output equals the k-keyed subsequence of the flattened input. -/
theorem C6_stable_sorted_trace (records : List Record) (dec : Bool)
    (flat : List CallRec) (keyed : List TickCall) (k : Int)
    (hc : collectCalls dec records = some flat)
    (ht : toIntTicks flat = some keyed) :
    save_python_calls records dec = some (keyed.mergeSort tickLe) ∧
    (keyed.mergeSort tickLe).Pairwise (fun a b => a.tick ≤ b.tick) ∧
    (keyed.mergeSort tickLe).filter (fun c => decide (c.tick = k)) =
      keyed.filter (fun c => decide (c.tick = k)) := by
  refine ⟨?_, ?_, mergeSort_filter_tick keyed k⟩
  · simp [save_python_calls, hc, ht]
  · have := @List.sorted_mergeSort TickCall tickLe
      (by
        intro a b c
        unfold tickLe
        simp only [decide_eq_true_eq]
        omega)
      (by
        intro a b
        unfold tickLe
        simp only [Bool.or_eq_true, decide_eq_true_eq]
        omega) keyed
    exact this.imp (by
      intro a b h
      unfold tickLe at h
      simpa using h)

/-- C6 witness: a one-record batch (the iron-ore harvest) flattens to one
call with tick 380 and save_python_calls emits it sorted and stable. -/
theorem C6_stable_sorted_trace_witness :
    collectCalls true [setKey
      [("t", JVal.num 500), ("duration_ticks", JVal.num 120),
        ("entity", JVal.str "iron-ore"), ("x", JVal.num 12), ("y", JVal.num 34)]
      "_source_file" (JVal.str "harvest_resource_collated.jsonl")] =
      some [⟨"harvest_resource(start_tick=380, end_tick=500, entity='iron-ore', x=12, y=34)",
        J2.base (.num 380)⟩] ∧
    save_python_calls [setKey
      [("t", JVal.num 500), ("duration_ticks", JVal.num 120),
        ("entity", JVal.str "iron-ore"), ("x", JVal.num 12), ("y", JVal.num 34)]
      "_source_file" (JVal.str "harvest_resource_collated.jsonl")] true =
      some ([⟨380, "harvest_resource(start_tick=380, end_tick=500, entity='iron-ore', x=12, y=34)"⟩].mergeSort
        tickLe) ∧
    ([(⟨380, "harvest_resource(start_tick=380, end_tick=500, entity='iron-ore', x=12, y=34)"⟩ :
        TickCall)].mergeSort tickLe).Pairwise (fun a b => a.tick ≤ b.tick) := by
  have h := C6_stable_sorted_trace
    [setKey [("t", JVal.num 500), ("duration_ticks", JVal.num 120),
      ("entity", JVal.str "iron-ore"), ("x", JVal.num 12), ("y", JVal.num 34)]
      "_source_file" (JVal.str "harvest_resource_collated.jsonl")] true
    [⟨"harvest_resource(start_tick=380, end_tick=500, entity='iron-ore', x=12, y=34)",
      J2.base (.num 380)⟩]
    [⟨380, "harvest_resource(start_tick=380, end_tick=500, entity='iron-ore', x=12, y=34)"⟩]
    380 (by decide) (by decide)
  exact ⟨by decide, h.1, h.2.1⟩

/-- C8: first-item-only marshalling. When an extract_item or insert_item
action's items argument parses to more than one item descriptor, the
marshaller prepares exactly one external call from the first descriptor's
name and count; every later descriptor is dropped (extract loops over
items_list[:1], insert reads items_list[0]). -/
theorem C8_first_item_only
    (parseItems : String → Option (List (List (String × JS))))
    (protoMem : String → Bool) (query : String → PVal → PVal → List String)
    (args : List (String × PVal)) (s : String) (it1 : List (String × JS))
    (rest : List (List (String × JS))) (iv : JS) (ex ey : PVal)
    (hitems : jget (filterTiming args) "items" = some (.str s))
    (hs : pyStrip s.data ≠ [])
    (hp : parseItems (swapQuotes s) = some (it1 :: rest))
    (hmulti : rest ≠ [])
    (hiv : jget it1 "item" = some iv)
    (hx : jget (filterTiming args) "entity_x" = some ex)
    (hy : jget (filterTiming args) "entity_y" = some ey) :
    extract_item_block parseItems protoMem "extract_item" args =
      .executed [⟨mkHandle protoMem iv, ex, ey, (jget it1 "count").getD (JS.num 1)⟩] ∧
    (insert_item_args parseItems protoMem query args).map
        (fun a => (a.entity, a.quantity)) =
      some (some (mkHandle protoMem iv), some ((jget it1 "count").getD (JS.num 1))) := by
  constructor
  · unfold extract_item_block
    rw [if_pos ⟨rfl, by rw [hitems]; rfl⟩]
    rw [hitems]
    simp only []
    rw [if_neg (by simpa using hs)]
    rw [hp]
    simp only []
    rw [if_pos (by simp)]
    rw [hx, hy, hiv]
  · unfold insert_item_args insert_items_calc
    rw [hitems]
    simp only []
    rw [hp]
    simp only []
    rw [hiv]
    rfl

/-- C8 witness: a two-descriptor items payload marshals to one call carrying
iron-plate with count 3; the second descriptor (coal) is dropped. -/
theorem C8_first_item_only_witness :
    extract_item_block
      (fun _ => some [[("item", JS.str "iron-plate"), ("count", JS.num 3)],
        [("item", JS.str "coal")]])
      (fun s => s = "iron-plate") "extract_item"
      [("items", PVal.str "x"), ("entity_x", PVal.int 1), ("entity_y", PVal.int 2)] =
      .executed [⟨Handle.proto "iron-plate", PVal.int 1, PVal.int 2, JS.num 3⟩] ∧
    (insert_item_args
      (fun _ => some [[("item", JS.str "iron-plate"), ("count", JS.num 3)],
        [("item", JS.str "coal")]])
      (fun s => s = "iron-plate") (fun _ _ _ => [])
      [("items", PVal.str "x"), ("entity_x", PVal.int 1), ("entity_y", PVal.int 2)]).map
        (fun a => (a.entity, a.quantity)) =
      some (some (Handle.proto "iron-plate"), some (JS.num 3)) := by
  have h := C8_first_item_only
    (fun _ => some [[("item", JS.str "iron-plate"), ("count", JS.num 3)],
      [("item", JS.str "coal")]])
    (fun s => s = "iron-plate") (fun _ _ _ => [])
    [("items", PVal.str "x"), ("entity_x", PVal.int 1), ("entity_y", PVal.int 2)]
    "x" [("item", JS.str "iron-plate"), ("count", JS.num 3)] [[("item", JS.str "coal")]]
    (JS.str "iron-plate") (PVal.int 1) (PVal.int 2)
    (by decide) (by decide) (by decide) (by decide) (by decide) (by decide) (by decide)
  constructor
  · rw [h.1]
    decide
  · rw [h.2]
    decide

theorem digitChar_isDigit (d : Nat) (h : d < 10) : (digitChar d).isDigit = true := by
  interval_cases d <;> decide

theorem digitChar_val (d : Nat) (h : d < 10) : digitVal (digitChar d) = d := by
  interval_cases d <;> decide

theorem natToDecGo_digits : ∀ (f m : Nat), m ≤ f →
    (natToDecGo f m).all Char.isDigit = true := by
  intro f
  induction f with
  | zero =>
    intro m h
    interval_cases m
    rfl
  | succ f ih =>
    intro m h
    by_cases hm : m = 0
    · simp [natToDecGo, hm]
    · simp only [natToDecGo, if_neg hm, List.all_append]
      rw [ih (m / 10) (by omega)]
      simp [digitChar_isDigit (m % 10) (by omega)]

theorem natToDecGo_foldl : ∀ (f m a : Nat), m ≤ f →
    (natToDecGo f m).foldl (fun x c => 10 * x + digitVal c) a =
      a * 10 ^ (natToDecGo f m).length + m := by
  intro f
  induction f with
  | zero =>
    intro m a h
    interval_cases m
    simp [natToDecGo]
  | succ f ih =>
    intro m a h
    by_cases hm : m = 0
    · simp [natToDecGo, hm]
    · simp only [natToDecGo, if_neg hm, List.foldl_append, List.length_append]
      rw [ih (m / 10) a (by omega)]
      simp only [List.foldl_cons, List.foldl_nil, List.length_cons, List.length_nil]
      rw [digitChar_val (m % 10) (by omega)]
      rw [pow_succ]
      have : 10 * (m / 10) + m % 10 = m := by omega
      ring_nf
      omega

theorem natToDec_ne_nil (m : Nat) : natToDec m ≠ [] := by
  unfold natToDec
  by_cases hm : m = 0
  · simp [hm]
  · rw [if_neg hm]
    match f : m with
    | 0 => omega
    | k+1 =>
      simp only [natToDecGo, if_neg hm]
      simp

theorem parseDigits_natToDec (m : Nat) : parseDigits (natToDec m) = some m := by
  unfold parseDigits
  rw [if_pos]
  · congr 1
    unfold natToDec
    by_cases hm : m = 0
    · simp [hm, List.foldl, digitVal]
    · rw [if_neg hm]
      rw [natToDecGo_foldl m m 0 (le_refl m)]
      simp
  · constructor
    · exact natToDec_ne_nil m
    · unfold natToDec
      by_cases hm : m = 0
      · simp [hm]
      · rw [if_neg hm]
        exact natToDecGo_digits m m (le_refl m)

theorem asString_data (l : List Char) : l.asString.data = l := rfl

theorem isDigit_ne (c : Char) (h : c.isDigit = true) (d : Char) (hd : d.isDigit = false) :
    c ≠ d := by
  intro he
  rw [he, hd] at h
  exact Bool.false_ne_true h

theorem natToDec_head_digit (m : Nat) :
    ∃ c t, natToDec m = c :: t ∧ c.isDigit = true := by
  have hne := natToDec_ne_nil m
  have hall : (natToDec m).all Char.isDigit = true := by
    unfold natToDec
    by_cases hm : m = 0
    · simp [hm]
    · rw [if_neg hm]
      exact natToDecGo_digits m m (le_refl m)
  match hx : natToDec m with
  | [] => exact absurd hx hne
  | c :: t =>
    rw [hx] at hall
    simp only [List.all_cons, Bool.and_eq_true] at hall
    exact ⟨c, t, rfl, hall.1⟩

theorem pyIntParse_intToDec (n : Int) : pyIntParse (intToDec n) = some n := by
  unfold pyIntParse intToDec
  rw [asString_data]
  obtain ⟨c, t, hct, hdig⟩ := natToDec_head_digit n.natAbs
  by_cases hn : n < 0
  · simp only [if_pos hn, List.cons_append, List.nil_append]
    simp [parseDigits_natToDec]
    rw [Int.abs_eq_natAbs]
    omega
  · simp only [if_neg hn, List.nil_append]
    rw [hct]
    simp [isDigit_ne c hdig '-' (by decide), isDigit_ne c hdig '+' (by decide), ← hct,
      parseDigits_natToDec]
    omega

theorem natToDec_all_digits (m : Nat) : (natToDec m).all Char.isDigit = true := by
  unfold natToDec
  by_cases hm : m = 0
  · simp [hm]
  · rw [if_neg hm]
    exact natToDecGo_digits m m (le_refl m)

theorem natToDec_single (m : Nat) (h : m < 10) : natToDec m = [digitChar m] := by
  interval_cases m <;> decide

theorem parseDigits0_eq (l : List Char) (h : l ≠ []) : parseDigits0 l = parseDigits l := by
  unfold parseDigits parseDigits0
  by_cases ha : l.all Char.isDigit
  · rw [if_pos ha, if_pos ⟨h, ha⟩]
  · rw [if_neg ha, if_neg (fun hc => ha hc.2)]

theorem char_fn_ne (f : Char → Bool) (c d : Char) (h : f c = true) (hd : f d = false) :
    c ≠ d := by
  intro he
  rw [he, hd] at h
  exact Bool.false_ne_true h

theorem all_digits_not_elem (d : Char) (hd : d.isDigit = false) :
    ∀ l : List Char, l.all Char.isDigit = true → l.contains d = false := by
  intro l
  induction l with
  | nil => intro _; rfl
  | cons c t ih =>
    intro h
    simp only [List.all_cons, Bool.and_eq_true] at h
    simp only [List.contains_cons, Bool.or_eq_false_iff]
    constructor
    · rw [beq_eq_false_iff_ne]
      exact (char_fn_ne Char.isDigit c d h.1 hd).symm
    · exact ih h.2

theorem takeWhile_all_append (p : Char → Bool) : ∀ (l₁ l₂ : List Char),
    (∀ c ∈ l₁, p c = true) → (l₁ ++ l₂).takeWhile p = l₁ ++ l₂.takeWhile p := by
  intro l₁
  induction l₁ with
  | nil => intro l₂ _; simp
  | cons c t ih =>
    intro l₂ h
    simp only [List.cons_append, List.takeWhile_cons, h c (List.mem_cons_self c t), if_true]
    rw [ih l₂ (fun x hx => h x (List.mem_cons_of_mem c hx))]

theorem dropWhile_all_append (p : Char → Bool) : ∀ (l₁ l₂ : List Char),
    (∀ c ∈ l₁, p c = true) → (l₁ ++ l₂).dropWhile p = l₂.dropWhile p := by
  intro l₁
  induction l₁ with
  | nil => intro l₂ _; simp
  | cons c t ih =>
    intro l₂ h
    simp only [List.cons_append, List.dropWhile_cons, h c (List.mem_cons_self c t), if_true]
    exact ih l₂ (fun x hx => h x (List.mem_cons_of_mem c hx))

theorem dropWhile_head_false (p : Char → Bool) (c : Char) (t : List Char) (h : p c = false) :
    (c :: t).dropWhile p = c :: t := by
  simp [List.dropWhile_cons, h]

theorem pyFloatAbs_dec (a b : Nat) (hb : b < 10) :
    pyFloatAbs (natToDec a ++ '.' :: natToDec b) = some ((a : ℚ) + (b : ℚ) / 10) := by
  have hA := natToDec_all_digits a
  simp only [List.all_eq_true] at hA
  have hAd : ∀ c ∈ natToDec a, (decide (c ≠ '.') : Bool) = true := by
    intro c hc
    rw [decide_eq_true_eq]
    exact char_fn_ne Char.isDigit c '.' (hA c hc) (by decide)
  unfold pyFloatAbs
  have h1 : (natToDec a ++ '.' :: natToDec b).contains '.' = true := by
    simp
  rw [if_pos h1]
  have htw : (natToDec a ++ '.' :: natToDec b).takeWhile (fun c => c ≠ '.') = natToDec a := by
    rw [takeWhile_all_append _ _ _ hAd]
    simp [List.takeWhile_cons]
  have hdw : (natToDec a ++ '.' :: natToDec b).dropWhile (fun c => c ≠ '.') = '.' :: natToDec b := by
    rw [dropWhile_all_append _ _ _ hAd]
    simp [List.dropWhile_cons]
  rw [htw, hdw]
  simp only [List.drop_succ_cons, List.drop_zero]
  have hB : (natToDec b).contains '.' = false :=
    all_digits_not_elem '.' (by decide) (natToDec b) (natToDec_all_digits b)
  rw [if_neg (by simpa using hB)]
  have hlen : 0 < (natToDec a).length := List.length_pos.mpr (natToDec_ne_nil a)
  rw [if_neg (by omega)]
  rw [parseDigits0_eq _ (natToDec_ne_nil a), parseDigits_natToDec,
    parseDigits0_eq _ (natToDec_ne_nil b), parseDigits_natToDec]
  rw [natToDec_single b hb]
  norm_num

theorem pyFloatParse_cons (c : Char) (l : List Char) :
    pyFloatParse (c :: l).asString =
      if c = '-' then (pyFloatAbs l).map (fun q => -q)
      else if c = '+' then pyFloatAbs l
      else pyFloatAbs (c :: l) := rfl

theorem pyFloatParse_renderTenths (t : Int) :
    pyFloatParse (renderTenths t) = some ((t : ℚ) / 10) := by
  have key : pyFloatAbs (natToDec (t.natAbs / 10) ++ '.' :: natToDec (t.natAbs % 10)) =
      some (((t.natAbs / 10 : Nat) : ℚ) + ((t.natAbs % 10 : Nat) : ℚ) / 10) :=
    pyFloatAbs_dec _ _ (Nat.mod_lt _ (by norm_num))
  have habs : ((t.natAbs : ℚ)) =
      10 * ((t.natAbs / 10 : Nat) : ℚ) + ((t.natAbs % 10 : Nat) : ℚ) := by
    have h10 : 10 * (t.natAbs / 10) + t.natAbs % 10 = t.natAbs := by omega
    exact_mod_cast (congrArg (fun n : Nat => (n : ℚ)) h10).symm
  unfold renderTenths
  by_cases hn : t < 0
  · have ht : ((t.natAbs : ℚ)) = -(t : ℚ) := by
      rw [@Int.cast_natAbs ℚ _ t, abs_of_neg hn]
      push_cast
      ring
    rw [if_pos hn, List.singleton_append, List.cons_append, pyFloatParse_cons, if_pos rfl, key]
    simp only [Option.map_some', Option.some.injEq]
    linarith [habs, ht]
  · have ht : ((t.natAbs : ℚ)) = (t : ℚ) := by
      rw [@Int.cast_natAbs ℚ _ t, abs_of_nonneg (not_lt.mp hn)]
    obtain ⟨c, tl, hct, hdig⟩ := natToDec_head_digit (t.natAbs / 10)
    rw [if_neg hn, List.nil_append, hct, List.cons_append, pyFloatParse_cons,
      if_neg (char_fn_ne Char.isDigit c '-' hdig (by decide)),
      if_neg (char_fn_ne Char.isDigit c '+' hdig (by decide)),
      ← List.cons_append, ← hct, key]
    simp only [Option.some.injEq]
    linarith [habs, ht]

theorem data_asString (s : String) : s.data.asString = s := rfl

theorem ws_cases (c : Char) (h : c.isWhitespace = true) :
    c = ' ' ∨ c = '\t' ∨ c = '\r' ∨ c = '\n' := by
  simp [Char.isWhitespace] at h
  tauto

theorem not_ws_of_fn (f : Char → Bool) (c : Char) (h : f c = true) (h1 : f ' ' = false)
    (h2 : f '\t' = false) (h3 : f '\r' = false) (h4 : f '\n' = false) :
    c.isWhitespace = false := by
  cases hw : c.isWhitespace
  · rfl
  · rcases ws_cases c hw with rfl | rfl | rfl | rfl
    · rw [h1] at h; exact absurd h (by decide)
    · rw [h2] at h; exact absurd h (by decide)
    · rw [h3] at h; exact absurd h (by decide)
    · rw [h4] at h; exact absurd h (by decide)

theorem inert_of_fn (f : Char → Bool) (c : Char) (h : f c = true) (h1 : f '(' = false)
    (h2 : f '[' = false) (h3 : f '{' = false) (h4 : f ')' = false) (h5 : f ']' = false)
    (h6 : f '}' = false) (h7 : f ',' = false) : splitterInert c = true := by
  cases hs : splitterInert c
  · exfalso
    simp only [splitterInert, Bool.not_eq_false'] at hs
    simp only [List.contains_cons, List.contains_nil, Bool.or_false, Bool.or_eq_true,
      beq_iff_eq] at hs
    rcases hs with rfl | rfl | rfl | rfl | rfl | rfl | rfl <;> simp_all
  · rfl

theorem all_digits_not_mem (d : Char) (hd : d.isDigit = false) (l : List Char)
    (h : l.all Char.isDigit = true) : d ∉ l := by
  intro hm
  simp only [List.all_eq_true] at h
  exact absurd (h d hm) (by simp [hd])

theorem filter_digits (l : List Char) (h : l.all Char.isDigit = true) :
    l.filter (fun c => decide (c ≠ '.') && decide (c ≠ '-')) = l := by
  simp only [List.all_eq_true] at h
  refine List.filter_eq_self.mpr (fun a ha => ?_)
  simp [char_fn_ne Char.isDigit a '.' (h a ha) (by decide),
    char_fn_ne Char.isDigit a '-' (h a ha) (by decide)]

theorem parseValue_rint (litEval : String → Option JVal) (n : Int) :
    parseValue litEval ((renderRVal (RVal.rint n)).data) = PVal.int n := by
  obtain ⟨c, tl, hct, hdig⟩ := natToDec_head_digit n.natAbs
  show parseValue litEval (intToDec n).data = PVal.int n
  unfold intToDec
  rw [asString_data]
  by_cases hn : n < 0
  · rw [if_pos hn, List.singleton_append]
    unfold parseValue
    rw [if_neg (by simp), if_neg (by simp), if_neg (by simp)]
    rw [if_pos (show numericCheckB ('-' :: natToDec n.natAbs) = true from by
      unfold numericCheckB
      rw [List.filter_cons, if_neg (by decide), filter_digits _ (natToDec_all_digits n.natAbs)]
      simp [natToDec_ne_nil, natToDec_all_digits])]
    rw [if_neg (by
      rw [List.contains_cons]
      simp
      exact all_digits_not_mem '.' (by decide) _ (natToDec_all_digits n.natAbs))]
    rw [show ('-' :: natToDec n.natAbs).asString = intToDec n from by
      unfold intToDec
      rw [if_pos hn, List.singleton_append]]
    rw [pyIntParse_intToDec]
  · rw [if_neg hn, List.nil_append, hct]
    unfold parseValue
    rw [if_neg (by simp [char_fn_ne Char.isDigit c '\'' hdig (by decide)]),
      if_neg (by simp [char_fn_ne Char.isDigit c '"' hdig (by decide)]),
      if_neg (by simp [char_fn_ne Char.isDigit c '[' hdig (by decide),
        char_fn_ne Char.isDigit c '{' hdig (by decide)])]
    rw [if_pos (show numericCheckB (c :: tl) = true from by
      rw [← hct]
      unfold numericCheckB
      rw [filter_digits _ (natToDec_all_digits n.natAbs)]
      simp [natToDec_ne_nil, natToDec_all_digits])]
    rw [if_neg (by
      rw [← hct]
      simp
      exact all_digits_not_mem '.' (by decide) _ (natToDec_all_digits n.natAbs))]
    rw [show (c :: tl).asString = intToDec n from by
      rw [← hct]
      unfold intToDec
      rw [if_neg hn, List.nil_append]]
    rw [pyIntParse_intToDec]

theorem parseValue_rdec (litEval : String → Option JVal) (t : Int) :
    parseValue litEval ((renderRVal (RVal.rdec t)).data) = PVal.float ((t : ℚ) / 10) := by
  obtain ⟨c, tl, hct, hdig⟩ := natToDec_head_digit (t.natAbs / 10)
  have hAB : natToDec (t.natAbs / 10) ++ natToDec (t.natAbs % 10) ≠ [] := fun hcon =>
    natToDec_ne_nil (t.natAbs / 10) (List.append_eq_nil.mp hcon).1
  have hnum : numericCheckB (natToDec (t.natAbs / 10) ++ '.' :: natToDec (t.natAbs % 10)) =
      true := by
    unfold numericCheckB
    rw [List.filter_append, filter_digits _ (natToDec_all_digits (t.natAbs / 10)),
      List.filter_cons, if_neg (by decide), filter_digits _ (natToDec_all_digits (t.natAbs % 10))]
    simp [hAB, List.all_append, natToDec_all_digits]
  show parseValue litEval (renderTenths t).data = PVal.float ((t : ℚ) / 10)
  unfold renderTenths
  rw [asString_data]
  by_cases hn : t < 0
  · rw [if_pos hn, List.singleton_append, List.cons_append]
    unfold parseValue
    rw [if_neg (by simp), if_neg (by simp), if_neg (by simp)]
    rw [if_pos (show numericCheckB ('-' :: (natToDec (t.natAbs / 10) ++ '.' ::
        natToDec (t.natAbs % 10))) = true from by
      unfold numericCheckB
      rw [List.filter_cons, if_neg (by decide)]
      unfold numericCheckB at hnum
      exact hnum)]
    rw [if_pos (show (('-' :: (natToDec (t.natAbs / 10) ++ '.' ::
        natToDec (t.natAbs % 10))).contains '.') = true from by simp)]
    rw [show ('-' :: (natToDec (t.natAbs / 10) ++ '.' :: natToDec (t.natAbs % 10))).asString =
        renderTenths t from by
      unfold renderTenths
      rw [if_pos hn, List.singleton_append, List.cons_append]]
    rw [pyFloatParse_renderTenths]
  · rw [if_neg hn, List.nil_append, hct, List.cons_append]
    unfold parseValue
    rw [if_neg (by simp [char_fn_ne Char.isDigit c '\'' hdig (by decide)]),
      if_neg (by simp [char_fn_ne Char.isDigit c '"' hdig (by decide)]),
      if_neg (by simp [char_fn_ne Char.isDigit c '[' hdig (by decide),
        char_fn_ne Char.isDigit c '{' hdig (by decide)])]
    rw [if_pos (show numericCheckB (c :: (tl ++ '.' :: natToDec (t.natAbs % 10))) = true from by
      rw [← List.cons_append, ← hct]
      exact hnum)]
    rw [if_pos (show ((c :: (tl ++ '.' :: natToDec (t.natAbs % 10))).contains '.') = true from by
      simp)]
    rw [show (c :: (tl ++ '.' :: natToDec (t.natAbs % 10))).asString = renderTenths t from by
      rw [← List.cons_append, ← hct]
      unfold renderTenths
      rw [if_neg hn, List.nil_append]]
    rw [pyFloatParse_renderTenths]

theorem parseValue_rstr (litEval : String → Option JVal) (s : String) :
    parseValue litEval ((renderRVal (RVal.rstr s)).data) = PVal.str s := by
  show parseValue litEval ("'" ++ s ++ "'").data = PVal.str s
  have hdata : ("'" ++ s ++ "'").data = '\'' :: s.data ++ ['\''] := by
    simp [String.data_append]
  rw [hdata]
  unfold parseValue
  rw [if_pos ⟨by rw [List.cons_append]; rfl, List.getLast?_concat _⟩]
  rw [List.cons_append]
  simp only [List.drop_succ_cons, List.drop_zero, List.dropLast_concat]
  rw [data_asString]

theorem parseValue_rval (litEval : String → Option JVal) (v : RVal) :
    parseValue litEval ((renderRVal v).data) = expectedPVal v := by
  cases v with
  | rint n => exact parseValue_rint litEval n
  | rdec t => exact parseValue_rdec litEval t
  | rstr s => exact parseValue_rstr litEval s

theorem all_getLast (p : Char → Bool) (l : List Char) (h : l.all p = true) (c : Char)
    (hc : l.getLast? = some c) : p c = true := by
  simp only [List.all_eq_true] at h
  exact h c (List.mem_of_mem_getLast? hc)

theorem all_head (p : Char → Bool) (l : List Char) (h : l.all p = true) (c : Char)
    (hc : l.head? = some c) : p c = true := by
  simp only [List.all_eq_true] at h
  exact h c (List.mem_of_mem_head? (by simp [hc]))

theorem digit_inert (c : Char) (h : c.isDigit = true) : splitterInert c = true :=
  inert_of_fn Char.isDigit c h (by decide) (by decide) (by decide) (by decide) (by decide)
    (by decide) (by decide)

theorem wordChar_inert (c : Char) (h : wordChar c = true) : splitterInert c = true :=
  inert_of_fn wordChar c h (by decide) (by decide) (by decide) (by decide) (by decide)
    (by decide) (by decide)

theorem cleanStr_inert (c : Char) (h : cleanStrChar c = true) : splitterInert c = true :=
  inert_of_fn cleanStrChar c h (by decide) (by decide) (by decide) (by decide) (by decide)
    (by decide) (by decide)

theorem wordChar_not_ws (c : Char) (h : wordChar c = true) : c.isWhitespace = false :=
  not_ws_of_fn wordChar c h (by decide) (by decide) (by decide) (by decide)

theorem digit_not_ws (c : Char) (h : c.isDigit = true) : c.isWhitespace = false :=
  not_ws_of_fn Char.isDigit c h (by decide) (by decide) (by decide) (by decide)

theorem natToDec_all_inert (m : Nat) : (natToDec m).all splitterInert = true := by
  have h := natToDec_all_digits m
  simp only [List.all_eq_true] at h ⊢
  exact fun a ha => digit_inert a (h a ha)

theorem rval_ne_nil (v : RVal) : (renderRVal v).data ≠ [] := by
  cases v with
  | rint n =>
    show (intToDec n).data ≠ []
    unfold intToDec
    rw [asString_data]
    by_cases hn : n < 0
    · rw [if_pos hn]; simp
    · rw [if_neg hn, List.nil_append]; exact natToDec_ne_nil _
  | rdec t =>
    show (renderTenths t).data ≠ []
    unfold renderTenths
    rw [asString_data]
    intro hcon
    exact natToDec_ne_nil _ (List.append_eq_nil.mp (List.append_eq_nil.mp hcon).1).2
  | rstr s =>
    show ("'" ++ s ++ "'").data ≠ []
    simp [String.data_append]

theorem rval_all_inert (v : RVal) (h : wfRVal v = true) :
    (renderRVal v).data.all splitterInert = true := by
  cases v with
  | rint n =>
    show (intToDec n).data.all splitterInert = true
    unfold intToDec
    rw [asString_data]
    by_cases hn : n < 0
    · rw [if_pos hn, List.singleton_append]
      simp [natToDec_all_inert n.natAbs, List.all_cons]
      decide
    · rw [if_neg hn, List.nil_append]
      exact natToDec_all_inert n.natAbs
  | rdec t =>
    show (renderTenths t).data.all splitterInert = true
    unfold renderTenths
    rw [asString_data]
    simp only [List.all_append, List.all_cons, Bool.and_eq_true]
    refine ⟨⟨?_, natToDec_all_inert _⟩, by decide, natToDec_all_inert _⟩
    by_cases hn : t < 0
    · rw [if_pos hn]; decide
    · rw [if_neg hn]; decide
  | rstr s =>
    show ("'" ++ s ++ "'").data.all splitterInert = true
    have hdata : ("'" ++ s ++ "'").data = '\'' :: s.data ++ ['\''] := by
      simp [String.data_append]
    rw [hdata]
    simp only [List.all_append, List.all_cons, Bool.and_eq_true, List.all_nil]
    unfold wfRVal at h
    have hs := h
    simp only [List.all_eq_true] at hs
    refine ⟨⟨by decide, ?_⟩, by decide⟩
    simp only [List.all_eq_true]
    exact fun a ha => cleanStr_inert a (hs a ha)

theorem rval_head_not_ws (v : RVal) (c : Char) (hc : (renderRVal v).data.head? = some c) :
    c.isWhitespace = false := by
  cases v with
  | rint n =>
    obtain ⟨d, tl, hct, hdig⟩ := natToDec_head_digit n.natAbs
    revert hc
    show (intToDec n).data.head? = some c → c.isWhitespace = false
    unfold intToDec
    rw [asString_data]
    by_cases hn : n < 0
    · rw [if_pos hn, List.singleton_append, List.head?_cons]
      intro hc
      rw [(Option.some.inj hc).symm]
      decide
    · rw [if_neg hn, List.nil_append, hct, List.head?_cons]
      intro hc
      rw [(Option.some.inj hc).symm]
      exact digit_not_ws d hdig
  | rdec t =>
    obtain ⟨d, tl, hct, hdig⟩ := natToDec_head_digit (t.natAbs / 10)
    revert hc
    show (renderTenths t).data.head? = some c → c.isWhitespace = false
    unfold renderTenths
    rw [asString_data]
    by_cases hn : t < 0
    · rw [if_pos hn, List.singleton_append, List.cons_append, List.head?_cons]
      intro hc
      rw [(Option.some.inj hc).symm]
      decide
    · rw [if_neg hn, List.nil_append, hct, List.cons_append, List.head?_cons]
      intro hc
      rw [(Option.some.inj hc).symm]
      exact digit_not_ws d hdig
  | rstr s =>
    revert hc
    show ("'" ++ s ++ "'").data.head? = some c → c.isWhitespace = false
    have hdata : ("'" ++ s ++ "'").data = '\'' :: s.data ++ ['\''] := by
      simp [String.data_append]
    rw [hdata, List.cons_append, List.head?_cons]
    intro hc
    rw [(Option.some.inj hc).symm]
    decide

theorem rval_last_not_ws (v : RVal) (c : Char) (hc : (renderRVal v).data.getLast? = some c) :
    c.isWhitespace = false := by
  cases v with
  | rint n =>
    revert hc
    show (intToDec n).data.getLast? = some c → c.isWhitespace = false
    unfold intToDec
    rw [asString_data, List.getLast?_append_of_ne_nil _ (natToDec_ne_nil n.natAbs)]
    intro hc
    exact digit_not_ws c (all_getLast Char.isDigit _ (natToDec_all_digits n.natAbs) c hc)
  | rdec t =>
    revert hc
    show (renderTenths t).data.getLast? = some c → c.isWhitespace = false
    unfold renderTenths
    rw [asString_data,
      List.getLast?_append_of_ne_nil _ (List.cons_ne_nil '.' (natToDec (t.natAbs % 10))),
      show ('.' :: natToDec (t.natAbs % 10)) = ['.'] ++ natToDec (t.natAbs % 10) from rfl,
      List.getLast?_append_of_ne_nil _ (natToDec_ne_nil (t.natAbs % 10))]
    intro hc
    exact digit_not_ws c (all_getLast Char.isDigit _ (natToDec_all_digits (t.natAbs % 10)) c hc)
  | rstr s =>
    revert hc
    show ("'" ++ s ++ "'").data.getLast? = some c → c.isWhitespace = false
    have hdata : ("'" ++ s ++ "'").data = '\'' :: s.data ++ ['\''] := by
      simp [String.data_append]
    rw [hdata, List.getLast?_concat]
    intro hc
    rw [(Option.some.inj hc).symm]
    decide

theorem pyStrip_clean (l : List Char)
    (h1 : ∀ c, l.head? = some c → c.isWhitespace = false)
    (h2 : ∀ c, l.getLast? = some c → c.isWhitespace = false) : pyStrip l = l := by
  cases l with
  | nil => rfl
  | cons c t =>
    unfold pyStrip
    rw [dropWhile_head_false _ c t (h1 c rfl)]
    have hne : (c :: t) ≠ [] := List.cons_ne_nil c t
    have hrev : (c :: t).reverse = (c :: t).getLast hne :: (c :: t).dropLast.reverse := by
      conv_lhs => rw [← List.dropLast_append_getLast hne]
      rw [List.reverse_append]
      simp
    rw [hrev,
      dropWhile_head_false _ _ _ (h2 _ (List.getLast?_eq_getLast (c :: t) hne)),
      ← hrev, List.reverse_reverse]

theorem pyStrip_ws_append (w l : List Char) (hw : ∀ c ∈ w, c.isWhitespace = true) :
    pyStrip (w ++ l) = pyStrip l := by
  unfold pyStrip
  rw [dropWhile_all_append _ w l hw]

theorem pyStrip_ne_nil (c : Char) (t : List Char) (h : c.isWhitespace = false) :
    pyStrip (c :: t) ≠ [] := by
  unfold pyStrip
  rw [dropWhile_head_false _ c t h]
  intro hcon
  rw [List.reverse_eq_nil_iff] at hcon
  have hc := List.dropWhile_eq_nil_iff.mp hcon c (by simp)
  rw [h] at hc
  exact Bool.false_ne_true hc

theorem pieceOf_eq (k : String) (v : RVal) :
    pieceOf (k, v) = k.data ++ '=' :: (renderRVal v).data := by
  unfold pieceOf
  simp [String.data_append]

theorem wfName_data (k : String) (hk : wfName k = true) :
    k.data ≠ [] ∧ ∀ c ∈ k.data, wordChar c = true := by
  unfold wfName at hk
  simp only [Bool.and_eq_true, decide_eq_true_eq] at hk
  constructor
  · intro h
    apply hk.1
    have : k = ⟨[]⟩ := by cases k; simp_all
    exact this
  · have := hk.2
    simp only [List.all_eq_true] at this
    exact this

theorem pieceOf_head_not_ws (k : String) (v : RVal) (hk : wfName k = true) :
    ∀ c, (pieceOf (k, v)).head? = some c → c.isWhitespace = false := by
  obtain ⟨hne, hall⟩ := wfName_data k hk
  rw [pieceOf_eq]
  cases hkd : k.data with
  | nil => exact absurd hkd hne
  | cons d t =>
    rw [List.cons_append, List.head?_cons]
    intro c hc
    rw [(Option.some.inj hc).symm]
    exact wordChar_not_ws d (hall d (by rw [hkd]; exact List.mem_cons_self d t))

theorem pieceOf_last_not_ws (k : String) (v : RVal) :
    ∀ c, (pieceOf (k, v)).getLast? = some c → c.isWhitespace = false := by
  rw [pieceOf_eq,
    List.getLast?_append_of_ne_nil _ (List.cons_ne_nil '=' _),
    show ('=' :: (renderRVal v).data) = ['='] ++ (renderRVal v).data from rfl,
    List.getLast?_append_of_ne_nil _ (rval_ne_nil v)]
  exact fun c hc => rval_last_not_ws v c hc

theorem pieceOf_all_inert (k : String) (v : RVal) (hk : wfName k = true) (hv : wfRVal v = true) :
    (pieceOf (k, v)).all splitterInert = true := by
  obtain ⟨hne, hall⟩ := wfName_data k hk
  rw [pieceOf_eq]
  simp only [List.all_append, List.all_cons, Bool.and_eq_true]
  refine ⟨?_, by decide, rval_all_inert v hv⟩
  simp only [List.all_eq_true]
  exact fun a ha => wordChar_inert a (hall a ha)

theorem pieceOf_ne_nil (k : String) (v : RVal) : pieceOf (k, v) ≠ [] := by
  rw [pieceOf_eq]
  simp

theorem pieceOf_strip (k : String) (v : RVal) (hk : wfName k = true) :
    pyStrip (pieceOf (k, v)) = pieceOf (k, v) :=
  pyStrip_clean _ (pieceOf_head_not_ws k v hk) (pieceOf_last_not_ws k v)

theorem parsePair_render (litEval : String → Option JVal) (k : String) (v : RVal)
    (hk : wfName k = true) :
    parsePair litEval (pieceOf (k, v)) = some (k, expectedPVal v) := by
  obtain ⟨hne, hall⟩ := wfName_data k hk
  have hallB : k.data.all wordChar = true := by
    simp only [List.all_eq_true]
    exact hall
  have heq : ∀ c ∈ k.data, (decide (c ≠ '=') : Bool) = true := fun c hc => by
    rw [decide_eq_true_eq]
    exact char_fn_ne wordChar c '=' (hall c hc) (by decide)
  unfold parsePair
  rw [pieceOf_eq]
  rw [if_pos (show (k.data ++ '=' :: (renderRVal v).data).contains '=' = true from by simp)]
  have htw : (k.data ++ '=' :: (renderRVal v).data).takeWhile (fun c => c ≠ '=') = k.data := by
    rw [takeWhile_all_append _ _ _ heq]
    simp [List.takeWhile_cons]
  have hdw : (k.data ++ '=' :: (renderRVal v).data).dropWhile (fun c => c ≠ '=') =
      '=' :: (renderRVal v).data := by
    rw [dropWhile_all_append _ _ _ heq]
    simp [List.dropWhile_cons]
  rw [htw, hdw]
  simp only [List.drop_succ_cons, List.drop_zero]
  rw [pyStrip_clean k.data
    (fun c hc => wordChar_not_ws c (all_head wordChar k.data hallB c hc))
    (fun c hc => wordChar_not_ws c (all_getLast wordChar k.data hallB c hc))]
  rw [pyStrip_clean _ (rval_head_not_ws v) (rval_last_not_ws v)]
  rw [data_asString, parseValue_rval]

theorem splitArgsGo_inert : ∀ (piece rest cur : List Char),
    piece.all splitterInert = true →
    splitArgsGo (piece ++ rest) 0 0 0 cur = splitArgsGo rest 0 0 0 (cur ++ piece) := by
  intro piece
  induction piece with
  | nil => intro rest cur _; simp
  | cons c t ih =>
    intro rest cur h
    simp only [List.all_cons, Bool.and_eq_true] at h
    obtain ⟨hc, ht⟩ := h
    have hne : ∀ d : Char, splitterInert d = false → c ≠ d := fun d hd =>
      char_fn_ne splitterInert c d hc hd
    rw [List.cons_append]
    simp only [splitArgsGo]
    rw [if_neg (hne '(' (by decide)), if_neg (hne '[' (by decide)), if_neg (hne '{' (by decide)),
      if_neg (hne ')' (by decide)), if_neg (hne ']' (by decide)), if_neg (hne '}' (by decide)),
      if_neg (fun hcon => absurd hc (by rw [hcon.1]; decide))]
    rw [ih rest (cur ++ [c]) ht, List.append_assoc]
    rfl

theorem splitArgsGo_comma (cs cur : List Char) :
    splitArgsGo (',' :: cs) 0 0 0 cur = pyStrip cur :: splitArgsGo cs 0 0 0 [] := by
  simp only [splitArgsGo]
  rw [if_neg (by decide), if_neg (by decide), if_neg (by decide), if_neg (by decide),
    if_neg (by decide), if_neg (by decide), if_pos ⟨trivial, trivial, trivial, trivial⟩]

theorem renderCallArgs_single (a : String × RVal) : (renderCallArgs [a]).data = pieceOf a := rfl

theorem renderCallArgs_cons (a y : String × RVal) (t : List (String × RVal)) :
    (renderCallArgs (a :: y :: t)).data =
      pieceOf a ++ ',' :: ' ' :: (renderCallArgs (y :: t)).data := by
  unfold renderCallArgs
  simp only [List.map_cons, sjoin]
  simp [String.data_append, pieceOf]

theorem splitArgs_render : ∀ (args : List (String × RVal)) (a : String × RVal) (cur : List Char),
    (∀ p ∈ a :: args, wfName p.1 = true ∧ wfRVal p.2 = true) →
    (∀ c ∈ cur, c.isWhitespace = true ∧ splitterInert c = true) →
    splitArgsGo ((renderCallArgs (a :: args)).data) 0 0 0 cur = (a :: args).map pieceOf := by
  intro args
  induction args with
  | nil =>
    intro a cur h hcur
    obtain ⟨ha1, ha2⟩ := h a (List.mem_cons_self a [])
    rw [renderCallArgs_single]
    rw [show splitArgsGo (pieceOf a) 0 0 0 cur = splitArgsGo ([] : List Char) 0 0 0 (cur ++ pieceOf a) from by
      rw [← splitArgsGo_inert (pieceOf a) [] cur (pieceOf_all_inert a.1 a.2 ha1 ha2),
        List.append_nil]]
    simp only [splitArgsGo]
    rw [pyStrip_ws_append cur _ (fun c hc => (hcur c hc).1), pieceOf_strip a.1 a.2 ha1]
    rw [if_neg (pieceOf_ne_nil a.1 a.2)]
    rfl
  | cons y t ih =>
    intro a cur h hcur
    obtain ⟨ha1, ha2⟩ := h a (List.mem_cons_self _ _)
    rw [renderCallArgs_cons]
    rw [splitArgsGo_inert (pieceOf a) _ cur (pieceOf_all_inert a.1 a.2 ha1 ha2)]
    rw [splitArgsGo_comma]
    rw [pyStrip_ws_append cur _ (fun c hc => (hcur c hc).1), pieceOf_strip a.1 a.2 ha1]
    rw [show (' ' :: (renderCallArgs (y :: t)).data) =
      [' '] ++ (renderCallArgs (y :: t)).data from rfl]
    rw [splitArgsGo_inert [' '] _ [] (by decide)]
    simp only [List.nil_append]
    rw [ih y [' '] (fun p hp => h p (List.mem_cons_of_mem a hp)) (by
      intro c hc
      simp only [List.mem_singleton] at hc
      subst hc
      exact ⟨by decide, by decide⟩)]
    simp [List.map_cons]

theorem setKey_not_mem {α : Type} (r : List (String × α)) (k : String) (v : α)
    (h : ∀ p ∈ r, p.1 ≠ k) : setKey r k v = r ++ [(k, v)] := by
  unfold setKey
  have hany : r.any (fun p => p.1 == k) = false := by
    rw [List.any_eq_false]
    intro p hp
    simp [beq_iff_eq]
    exact h p hp
  rw [if_neg (by simp [hany])]

theorem foldl_setKey_render (litEval : String → Option JVal) :
    ∀ (args : List (String × RVal)) (acc : List (String × PVal)),
    (∀ p ∈ args, wfName p.1 = true ∧ wfRVal p.2 = true) →
    (acc.map Prod.fst ++ args.map Prod.fst).Nodup →
    (args.map pieceOf).foldl
      (fun acc pair => match parsePair litEval pair with
        | none => acc
        | some (k, v) => setKey acc k v) acc =
      acc ++ args.map (fun p => (p.1, expectedPVal p.2)) := by
  intro args
  induction args with
  | nil => intro acc _ _; simp
  | cons a t ih =>
    intro acc h hnd
    simp only [List.map_cons, List.foldl_cons]
    rw [show parsePair litEval (pieceOf a) = some (a.1, expectedPVal a.2) from
      parsePair_render litEval a.1 a.2 (h a (List.mem_cons_self a t)).1]
    have hdisj : ∀ p ∈ acc, p.1 ≠ a.1 := by
      intro p hp hcon
      rw [List.nodup_append] at hnd
      exact hnd.2.2 (List.mem_map_of_mem Prod.fst hp)
        (by rw [hcon]; exact List.mem_cons_self a.1 (t.map Prod.fst))
    show (t.map pieceOf).foldl _ (setKey acc a.1 (expectedPVal a.2)) = _
    rw [setKey_not_mem acc a.1 _ hdisj]
    rw [ih (acc ++ [(a.1, expectedPVal a.2)]) (fun p hp => h p (List.mem_cons_of_mem a hp))
      (by simpa using hnd)]
    simp

theorem parseArgsList_render (litEval : String → Option JVal) (args : List (String × RVal))
    (h : ∀ p ∈ args, wfName p.1 = true ∧ wfRVal p.2 = true)
    (hnd : (args.map Prod.fst).Nodup) :
    parseArgsList litEval ((renderCallArgs args).data) =
      args.map (fun p => (p.1, expectedPVal p.2)) := by
  cases args with
  | nil => rfl
  | cons a t =>
    obtain ⟨ha1, ha2⟩ := h a (List.mem_cons_self a t)
    obtain ⟨hne, hall⟩ := wfName_data a.1 ha1
    obtain ⟨r, hr⟩ : ∃ r, (renderCallArgs (a :: t)).data = pieceOf a ++ r := by
      cases t with
      | nil => exact ⟨[], by rw [renderCallArgs_single, List.append_nil]⟩
      | cons y t2 => exact ⟨_, renderCallArgs_cons a y t2⟩
    have hcond : pyStrip ((renderCallArgs (a :: t)).data) ≠ [] := by
      rw [hr, pieceOf_eq]
      cases hkd : a.1.data with
      | nil => exact absurd hkd hne
      | cons d dt =>
        rw [List.cons_append, List.cons_append]
        exact pyStrip_ne_nil d _
          (wordChar_not_ws d (hall d (by rw [hkd]; exact List.mem_cons_self d dt)))
    unfold parseArgsList
    rw [if_neg hcond]
    rw [splitArgs_render t a [] h (fun c hc => absurd hc (List.not_mem_nil c))]
    have := foldl_setKey_render litEval (a :: t) [] h (by simpa using hnd)
    rw [this]
    simp

/-- C7: the trace round-trip does NOT hold for every single-quoted string value:
a comma inside a quoted string is split on (the splitter tracks only the three
bracket pairs, not quotes), so `f(a='x,y')` parses to the mangled argument
`a = "'x"` instead of `a = "x,y"`. -/
theorem C7_counterexample :
    parse_function_call (fun _ => none) (renderCall "f" [("a", RVal.rstr "x,y")]) =
        some ("f", [("a", PVal.str "'x")]) ∧
      wfName "f" = true ∧ (["a"] : List String).Nodup ∧
      parse_function_call (fun _ => none) (renderCall "f" [("a", RVal.rstr "x,y")]) ≠
        some ("f", [("a", expectedPVal (RVal.rstr "x,y"))]) := by
  refine ⟨by decide, by decide, by decide, by decide⟩

/-- C7 (corrected): round-trip of the rendered trace artifact. For every call
string `name(key=value, ...)` emitted by the normalizer - name and keys
non-empty regex-word identifiers, keys distinct, values bare ints, one-decimal
floats or single-quoted strings whose content avoids the splitter's delimiter
characters (commas, quotes, parentheses, brackets, braces, newlines) -
parse_function_call recovers the function name and the exact key-to-value
mapping (ints as Python ints, one-decimal floats as exact tenths, quoted
strings with the quotes stripped). -/
theorem C7_call_round_trip (litEval : String → Option JVal) (name : String)
    (args : List (String × RVal)) (hname : wfName name = true)
    (hargs : ∀ p ∈ args, wfName p.1 = true ∧ wfRVal p.2 = true)
    (hnodup : (args.map Prod.fst).Nodup) :
    parse_function_call litEval (renderCall name args) =
      some (name, args.map (fun p => (p.1, expectedPVal p.2))) := by
  obtain ⟨hne, hall⟩ := wfName_data name hname
  unfold renderCall parse_function_call
  have hdata : (name ++ "(" ++ renderCallArgs args ++ ")").data =
      name.data ++ '(' :: ((renderCallArgs args).data ++ [')']) := by
    simp [String.data_append]
  rw [hdata]
  have htw : (name.data ++ '(' :: ((renderCallArgs args).data ++ [')'])).takeWhile wordChar =
      name.data := by
    rw [takeWhile_all_append wordChar _ _ hall, List.takeWhile_cons, if_neg (by decide),
      List.append_nil]
  rw [htw, if_neg hne, List.drop_left]
  simp only []
  have hrev : ((renderCallArgs args).data ++ [')']).reverse =
      ')' :: (renderCallArgs args).data.reverse := by
    rw [List.reverse_append]
    rfl
  have htk : (List.takeWhile (fun c => decide (c ≠ ')'))
      (((renderCallArgs args).data ++ [')']).reverse)).length = 0 := by
    rw [hrev]
    simp [List.takeWhile_cons]
  rw [htk]
  have hc : ¬((0 : Nat) = ((renderCallArgs args).data ++ [')']).length) := by simp
  rw [if_neg hc]
  have hlen : ((renderCallArgs args).data ++ [')']).length - 0 - 1 =
      (renderCallArgs args).data.length := by simp
  rw [hlen, List.take_left, data_asString, parseArgsList_render litEval args hargs hnodup]

/-- C7 witness: a concrete normalizer-shaped call with an int, a one-decimal
float and a clean quoted string round-trips exactly. -/
theorem C7_call_round_trip_witness :
    wfName "move_to" = true ∧
    parse_function_call (fun _ => none)
        (renderCall "move_to" [("start_tick", RVal.rint 5), ("x", RVal.rdec 45),
          ("entity", RVal.rstr "iron-ore")]) =
      some ("move_to", [("start_tick", PVal.int 5), ("x", PVal.float ((45 : ℚ) / 10)),
        ("entity", PVal.str "iron-ore")]) := by
  refine ⟨by decide, ?_⟩
  rw [C7_call_round_trip (fun _ => none) "move_to"
    [("start_tick", RVal.rint 5), ("x", RVal.rdec 45), ("entity", RVal.rstr "iron-ore")]
    (by decide) (by decide) (by decide)]
  rfl
